import Mathlib

/-! # droy-pm: version comparison, dependency resolution and installation

A shallow embedding of `internal/utils/utils.go` (`VersionCompare`),
`pkg/registry/registry.go` (`GetLatestVersion`, `getLatestGitHubVersion`),
`pkg/resolver/resolver.go` (`Resolve`, `resolveDependency`, `satisfies`,
`formatConflicts`, `normalizeVersionSpec`, `ResolveTree`, `Flatten`),
`pkg/registry/registry.go` (`Publish`), `pkg/installer/installer.go` (`New`,
`Install`, `Uninstall`, `installFromGitHub`, `installFromRegistry`,
`downloadFile`, `extractTarball`) and `cmd/install.go` (`parsePackageSpec`,
`packageAliases`, the install loop of `installAllDependencies`).

Modelling conventions.

* A Go `string` is a Lean `String`.  Go compares and scans strings byte by byte
  over their UTF-8 encoding; on sequences of Unicode scalar values that order is
  the lexicographic order of the code points, and a prefix test on bytes is a
  prefix test on code points, so the operations below work on `String.data`.
* A Go `map[string]T` is an association list with at most one entry per key;
  iteration over a map (`for k, v := range m`) visits the entries in an
  unspecified order, which here is the order of the list.
* A Go `(T, error)` result of the registry and the resolver is an
  `Except String T`, the string being the error message.  A function of the
  installer, which acts on the machine, returns the machine state after the
  call and its error, `none` for `nil`.
* The network is a parameter: `Remote` records what each HTTP request of the
  registry client yields, `Env` what a download yields and how the bytes of a
  file decode as a gzip-compressed tar archive.
-/

namespace DroyPM

/-! ## Go string primitives -/

/-- Go `a < b` on strings: lexicographic comparison, element by element. -/
def strLess : List Char → List Char → Bool
  | [], [] => false
  | [], _ :: _ => true
  | _ :: _, [] => false
  | a :: as, b :: bs =>
    if a.toNat < b.toNat then true
    else if b.toNat < a.toNat then false
    else strLess as bs

/-- Go `strings.HasPrefix(s, p)`. -/
def HasPrefix (s p : String) : Bool :=
  p.data.isPrefixOf s.data

/-- Go `strings.TrimPrefix(s, p)`. -/
def TrimPrefix (s p : String) : String :=
  if HasPrefix s p then ⟨s.data.drop p.data.length⟩ else s

/-- Go `unicode.IsSpace`: the Latin-1 spaces `\t \n \v \f \r`, space, U+0085,
U+00A0, and the other code points with the White_Space property. -/
def isSpace (c : Char) : Bool :=
  let n := c.toNat
  (9 ≤ n && n ≤ 13) || n = 0x20 || n = 0x85 || n = 0xA0 || n = 0x1680 ||
  (0x2000 ≤ n && n ≤ 0x200A) || n = 0x2028 || n = 0x2029 || n = 0x202F ||
  n = 0x205F || n = 0x3000

/-- Go `strings.TrimSpace`: drops the leading and the trailing white space. -/
def TrimSpace (s : String) : String :=
  ⟨((s.data.dropWhile isSpace).reverse.dropWhile isSpace).reverse⟩

/-- Pieces of `s` between occurrences of the one-character separator `sep`;
`cur` holds the characters of the piece being read, most recent first. -/
def splitAux (sep : Char) : List Char → List Char → List String
  | [], cur => [⟨cur.reverse⟩]
  | c :: cs, cur =>
    if c = sep then ⟨cur.reverse⟩ :: splitAux sep cs []
    else splitAux sep cs (c :: cur)

/-- Go `strings.Split(s, sep)` for a separator of one character. -/
def Split (s : String) (sep : Char) : List String :=
  splitAux sep s.data []

/-- Go `strings.Join(xs, sep)`. -/
def Join (xs : List String) (sep : String) : String :=
  sep.intercalate xs

/-! ## internal/utils -/

/-- `utils.VersionCompare` (utils.go 151-165): `0` on equal strings, otherwise
`-1` or `1` by the string order. -/
def VersionCompare (v1 v2 : String) : Int :=
  if v1 = v2 then 0
  else if strLess v1.data v2.data then -1
  else 1

/-! ## pkg/registry -/

/-- The fields of `registry.PackageInfo` that the resolver path reads or that
the registry document lists (`name`, `version`, `versions`); the descriptive
fields (`description`, `author`, `license`, `repository`, `keywords`, `dist`)
are read by no function embedded here.  The struct has no field for the
dependencies of a version. -/
structure PackageInfo where
  Name : String
  Version : String
  Versions : List String
deriving DecidableEq, Repr

/-- What the network answers.  `package name` is the outcome of
`Registry.GetPackage(name)` (registry.go 60-84): the decoded document on a
`200` answer, an error on a transport failure, a `404`, another status or an
undecodable body.  `release owner repo` is the `tag_name` of
`GET https://api.github.com/repos/<owner>/<repo>/releases/latest` when that
request succeeds with status `200` and a decodable body, and `none` otherwise. -/
structure Remote where
  package : String → Except String PackageInfo
  release : String → String → Option String

/-- `Registry.getLatestGitHubVersion` (registry.go 160-190). -/
def getLatestGitHubVersion (w : Remote) (repo : String) : Except String String :=
  let parts := Split repo '/'
  if parts.length < 3 then .error "invalid GitHub repository"
  else
    let owner := parts.getD 1 ""
    let repoName := parts.getD 2 ""
    match w.release owner repoName with
    | none => .ok "latest"
    | some tagName => .ok (TrimPrefix tagName "v")

/-- `Registry.GetLatestVersion` (registry.go 86-100). -/
def GetLatestVersion (w : Remote) (name : String) : Except String String :=
  match w.package name with
  | .ok info => .ok info.Version
  | .error err =>
    if HasPrefix name "github.com/" then getLatestGitHubVersion w name
    else .error err

/-! ## pkg/resolver -/

/-- Go `m[k]` with the comma-ok form: the value stored under `k`, if any. -/
def mapGet {β : Type} : List (String × β) → String → Option β
  | [], _ => none
  | (k', v) :: rest, k => if k' = k then some v else mapGet rest k

/-- Go `m[k] = v`: overwrites the entry of `k` or adds one. -/
def mapSet {β : Type} : List (String × β) → String → β → List (String × β)
  | [], k, v => [(k, v)]
  | (k', v') :: rest, k, v =>
    if k' = k then (k, v) :: rest else (k', v') :: mapSet rest k v

/-- The state of a `resolver.Resolver` (resolver.go 13-17); its `registry`
field is the client whose answers are the `Remote`. -/
structure Resolver where
  resolved : List (String × String)
  conflicts : List (String × List String)
deriving DecidableEq, Repr

/-- `normalizeVersionSpec` (resolver.go 115-121). -/
def normalizeVersionSpec (spec : String) : String :=
  let spec := TrimSpace spec
  if spec = "" then "latest" else spec

/-- The character class `[><=]`. -/
def isCmpChar (c : Char) : Bool :=
  c = '>' || c = '<' || c = '='

/-- The call `regexp.MatchString("^[><=]+", spec)` of resolver.go 98: the
string starts with one or more characters of the class. -/
def matchCmpPrefix (spec : String) : Bool :=
  0 < (spec.data.takeWhile isCmpChar).length

/-- `Resolver.satisfies` (resolver.go 79-104). -/
def satisfies (version spec : String) : Bool :=
  if spec = "*" ∨ spec = "latest" then true
  else if HasPrefix spec "^" then true
  else if HasPrefix spec "~" then true
  else if matchCmpPrefix spec then true
  else decide (version = spec)

/-- The order `a ≤ b` of `sort.Strings`. -/
def strLe (a b : String) : Prop :=
  strLess b.data a.data = false

instance strLe_decidable : DecidableRel strLe :=
  fun a b => inferInstanceAs (Decidable (strLess b.data a.data = false))

/-- Go `fmt.Sprintf("%v", specs)` on a `[]string`: the elements separated by
one space, in square brackets. -/
def fmtStrings (specs : List String) : String :=
  "[" ++ Join specs " " ++ "]"

/-- `Resolver.formatConflicts` (resolver.go 106-113): the message of the
returned error. -/
def formatConflicts (r : Resolver) : String :=
  let messages := r.conflicts.map (fun e => e.1 ++ ": " ++ fmtStrings e.2)
  let messages := messages.insertionSort strLe
  "version conflicts:\n  " ++ Join messages "\n  "

/-- `Resolver.resolveDependency` (resolver.go 46-77): the state after the
call and the returned error (`none` is `nil`). -/
def resolveDependency (w : Remote) (r : Resolver) (name versionSpec : String) :
    Resolver × Option String :=
  let versionSpec := normalizeVersionSpec versionSpec
  match mapGet r.resolved name with
  | some resolvedVersion =>
    if !satisfies resolvedVersion versionSpec then
      ({ r with conflicts :=
          mapSet r.conflicts name ((mapGet r.conflicts name).getD [] ++ [versionSpec]) },
        none)
    else (r, none)
  | none =>
    let latest :=
      match GetLatestVersion w name with
      | .ok latest => latest
      | .error _ => versionSpec
    ({ r with resolved := mapSet r.resolved name latest }, none)

/-- The loop of `Resolve` (resolver.go 33-37) over the entries of `deps` in
the order they are visited; it stops at the first error. -/
def resolveLoop (w : Remote) : Resolver → List (String × String) → Resolver × Option String
  | r, [] => (r, none)
  | r, (name, version) :: rest =>
    match resolveDependency w r name version with
    | (r', some err) => (r', some err)
    | (r', none) => resolveLoop w r' rest

/-- The end of `Resolve` (resolver.go 39-43): the conflict error when a
conflict was recorded, the resolved map otherwise. -/
def resolveResult (r : Resolver) : Except String (List (String × String)) :=
  if r.conflicts.length > 0 then .error (formatConflicts r) else .ok r.resolved

/-- `Resolver.Resolve` (resolver.go 29-44): both maps are reset, every entry
of `deps` is resolved, then the conflicts are checked. -/
def Resolve (w : Remote) (deps : List (String × String)) :
    Except String (List (String × String)) :=
  match resolveLoop w ⟨[], []⟩ deps with
  | (_, some err) => .error err
  | (r, none) => resolveResult r

/-! ## Registries used in the scenarios -/

/-- A registry whose document for every package names version `3.0.0`. -/
def remoteThree : Remote where
  package name := .ok ⟨name, "3.0.0", ["1.2.3", "3.0.0"]⟩
  release _ _ := none

/-- The registry of the end-to-end scenario: `a` has versions 1.0.0, 1.1.0 and
1.2.0, `b` has versions 2.0.0 and 2.0.1, the `version` field naming the
highest; no other package exists.  That every version of `a` depends on
`b ~2.0.0` has no place in a `PackageInfo`. -/
def remoteScenario : Remote where
  package name :=
    if name = "a" then .ok ⟨"a", "1.2.0", ["1.0.0", "1.1.0", "1.2.0"]⟩
    else if name = "b" then .ok ⟨"b", "2.0.1", ["2.0.0", "2.0.1"]⟩
    else .error ("package not found: " ++ name)
  release _ _ := none

/-- A registry in which `C` is at version 1.5.0. -/
def remoteC : Remote where
  package name :=
    if name = "C" then .ok ⟨"C", "1.5.0", ["1.0.0", "1.5.0", "2.0.0"]⟩
    else .error ("package not found: " ++ name)
  release _ _ := none

/-- An unreachable registry: every request fails. -/
def remoteDown : Remote where
  package _ := .error "failed to fetch package"
  release _ _ := none

deriving instance DecidableEq for Except

/-- The version `resolveDependency` stores for a name that is not resolved
yet (resolver.go 59-70): the answer of `GetLatestVersion`, or the normalised
constraint when the lookup fails. -/
def storedVersion (w : Remote) (name versionSpec : String) : String :=
  match GetLatestVersion w name with
  | .ok latest => latest
  | .error _ => normalizeVersionSpec versionSpec

/-- The entries of the conflict error before they are sorted and joined
(resolver.go 107-110): one `name: [constraints]` per recorded package. -/
def conflictEntries (r : Resolver) : List String :=
  r.conflicts.map (fun e => e.1 ++ ": " ++ fmtStrings e.2)

/-! ## Go library primitives used by the installer -/

/-- The text `fmt.Sprintf` appends for operands that no directive used:
`%!(EXTRA string=a, string=b)`; nothing when every operand was used. -/
def extraOperands : List String → List Char
  | [] => []
  | a :: args =>
    ("%!(EXTRA " ++ Join ((a :: args).map (fun x => "string=" ++ x)) ", " ++ ")").data

/-- The scan of `fmt.Sprintf` over a format with string operands, for the
directives `%s`, `%v` and `%%` written without flag, width, precision or
argument index.  `pending` says that the character before was an unfinished
`%`.  `%s` and `%v` consume the next operand or print `%!s(MISSING)`; `%%`
prints `%`; a `%` that ends the format prints `%!(NOVERB)`.  The result is
`none` when the format holds any other directive. -/
def sprintfScan : Bool → List Char → List String → Option (List Char)
  | false, [], args => some (extraOperands args)
  | true, [], args => some ("%!(NOVERB)".data ++ extraOperands args)
  | false, c :: rest, args =>
    if c = '%' then sprintfScan true rest args
    else (sprintfScan false rest args).map (fun out => c :: out)
  | true, c :: rest, args =>
    if c = '%' then (sprintfScan false rest args).map (fun out => '%' :: out)
    else if c = 's' ∨ c = 'v' then
      match args with
      | a :: args => (sprintfScan false rest args).map (fun out => a.data ++ out)
      | [] =>
        (sprintfScan false rest []).map (fun out => ['%', '!', c] ++ "(MISSING)".data ++ out)
    else none

/-- Go `fmt.Sprintf(format, args...)` with string operands.  `other` gives the
output for the formats outside the directives of `sprintfScan`. -/
def Sprintf (other : String → List String → String) (format : String) (args : List String) :
    String :=
  match sprintfScan false format.data args with
  | some out => ⟨out⟩
  | none => other format args

/-- One element of a path met by `filepath.Clean`, with the elements kept so
far in `stack`, the last one first: an empty element and `.` are dropped, `..`
removes the element before it, is dropped at the root of a rooted path and is
kept at the start of a relative one. -/
def cleanStep (rooted : Bool) (stack : List String) (c : String) : List String :=
  if c = "" ∨ c = "." then stack
  else if c = ".." then
    match stack with
    | [] => if rooted then [] else [".."]
    | top :: below => if top = ".." then ".." :: top :: below else below
  else c :: stack

/-- Go `filepath.Clean` with `/` as the separator. -/
def filepathClean (path : String) : String :=
  if path = "" then "."
  else
    let rooted := HasPrefix path "/"
    let elems := ((Split path '/').foldl (cleanStep rooted) []).reverse
    if rooted then "/" ++ Join elems "/"
    else if elems = [] then "." else Join elems "/"

/-- Go `filepath.Join`: the elements from the first non-empty one on, joined
with `/` and cleaned; the empty string when every element is empty. -/
def filepathJoin (elem : List String) : String :=
  match elem.dropWhile (fun e => decide (e = "")) with
  | [] => ""
  | rest => filepathClean (Join rest "/")

/-- Go `filepath.Dir`: the path up to its last separator, cleaned. -/
def filepathDir (path : String) : String :=
  filepathClean ⟨(path.data.reverse.dropWhile (fun c => decide (c ≠ '/'))).reverse⟩

/-! ## The machine: file system and network

The file system maps absolute paths, lists of elements from the root, to
nodes; the root is a directory.  A path string is resolved element by element
against the working directory, which is exact for the cleaned paths
`filepath.Join` and `filepath.Dir` return.  Permissions, symbolic links, full
disks and other processes are outside the model. -/

/-- A node of the file system: a regular file with its bytes, or a directory. -/
inductive Node where
  | file (content : List Nat)
  | dir
deriving DecidableEq, Repr

/-- The system errors of the model. -/
inductive Errno where
  | ENOENT
  | ENOTDIR
  | EISDIR
  | EINVAL
  | EBUSY
deriving DecidableEq, Repr

/-- A Go `error` of the installer: a system error (`*PathError`), an error
with a message, or `fmt.Errorf(message + ": %w", cause)`. -/
inductive Err where
  | os (errno : Errno)
  | text (message : String)
  | wrap (message : String) (cause : Err)
deriving DecidableEq, Repr

/-- The node stored under a path. -/
def fsGet : List (List String × Node) → List String → Option Node
  | [], _ => none
  | (p', n) :: rest, p => if p' = p then some n else fsGet rest p

/-- Stores a node under a path, replacing the one that was there. -/
def fsSet : List (List String × Node) → List String → Node → List (List String × Node)
  | [], p, n => [(p, n)]
  | (p', n') :: rest, p, n =>
    if p' = p then (p, n) :: rest else (p', n') :: fsSet rest p n

/-- The machine state: working directory, file system, and the URLs requested
over HTTP so far, oldest first. -/
structure Sys where
  cwd : List String
  files : List (List String × Node)
  requests : List String
deriving DecidableEq, Repr

/-- The node at an absolute path; the root always is a directory. -/
def nodeAt (fs : List (List String × Node)) (p : List String) : Option Node :=
  if p = [] then some .dir else fsGet fs p

/-- The absolute path a path string denotes. -/
def resolvePath (cwd : List String) (path : String) : List String :=
  let start := if HasPrefix path "/" then [] else cwd.reverse
  ((Split path '/').foldl (cleanStep true) start).reverse

/-- Path lookup by the kernel: `done` has been traversed, `rest` is ahead. -/
def lookupFrom (fs : List (List String × Node)) :
    List String → List String → Except Errno Node
  | done, [] =>
    match nodeAt fs done with
    | some n => .ok n
    | none => .error .ENOENT
  | done, c :: rest =>
    match nodeAt fs done with
    | some .dir => lookupFrom fs (done ++ [c]) rest
    | some (.file _) => .error .ENOTDIR
    | none => .error .ENOENT

/-- Go `os.Stat(path)`: the node, or the error. -/
def osStat (s : Sys) (path : String) : Except Errno Node :=
  if path = "" then .error .ENOENT
  else lookupFrom s.files [] (resolvePath s.cwd path)

/-- Go `os.IsNotExist(err)` on the outcome of `os.Stat`. -/
def isNotExist (r : Except Errno Node) : Bool :=
  match r with
  | .error .ENOENT => true
  | _ => false

/-- The walk of `os.MkdirAll`: every missing directory on the way is created;
a regular file on the way is the error `ENOTDIR`. -/
def mkdirFrom (fs : List (List String × Node)) :
    List String → List String → Except Errno (List (List String × Node))
  | done, [] =>
    match nodeAt fs done with
    | some .dir => .ok fs
    | some (.file _) => .error .ENOTDIR
    | none => .ok (fsSet fs done .dir)
  | done, c :: rest =>
    match nodeAt fs done with
    | some .dir => mkdirFrom fs (done ++ [c]) rest
    | some (.file _) => .error .ENOTDIR
    | none => mkdirFrom (fsSet fs done .dir) (done ++ [c]) rest

/-- Go `os.MkdirAll(path, 0755)`. -/
def osMkdirAll (s : Sys) (path : String) : Sys × Option Err :=
  if path = "" then (s, some (.os .ENOENT))
  else
    match mkdirFrom s.files [] (resolvePath s.cwd path) with
    | .ok fs => ({ s with files := fs }, none)
    | .error e => (s, some (.os e))

/-- Go `os.Create(path)`: the file is created, or emptied when it exists; the
directory holding it must exist, and the path must not be a directory. -/
def osCreate (s : Sys) (path : String) : Except Errno Sys :=
  if path = "" then .error .ENOENT
  else
    let p := resolvePath s.cwd path
    if p = [] then .error .EISDIR
    else
      match lookupFrom s.files [] p.dropLast with
      | .error e => .error e
      | .ok (.file _) => .error .ENOTDIR
      | .ok .dir =>
        match nodeAt s.files p with
        | some .dir => .error .EISDIR
        | _ => .ok { s with files := fsSet s.files p (.file []) }

/-- The effect of `io.Copy(out, src)` on the file `out` that `os.Create(path)`
opened, when `src` delivers `bytes` before it ends or fails. -/
def copyTo (s : Sys) (path : String) (bytes : List Nat) : Sys :=
  { s with files := fsSet s.files (resolvePath s.cwd path) (.file bytes) }

/-- The outcome of `http.Get(url)`: an error, or a response with its status
code, status line and the bytes the body delivers, followed by the read error
that cuts the body short, if any. -/
inductive HttpResult where
  | failed (message : String)
  | response (statusCode : Nat) (status : String) (body : List Nat) (bodyErr : Option String)
deriving DecidableEq, Repr

/-- The `Typeflag` of a tar header, as far as `extractTarball` tells them
apart. -/
inductive Typeflag where
  | TypeReg
  | TypeDir
  | other
deriving DecidableEq, Repr

/-- One entry of a tar stream: the header fields read by `extractTarball`, the
bytes `io.Copy` gets from the entry, and the error ending that copy, if any. -/
structure TarEntry where
  Name : String
  Typeflag : Typeflag
  data : List Nat
  dataErr : Option String
deriving DecidableEq, Repr

/-- What reading a file as a gzip-compressed tar archive gives: `invalid` when
`gzip.NewReader` fails, otherwise the entries that `tarReader.Next()` returns
before it returns `io.EOF` (`final = none`) or an error. -/
inductive Archive where
  | invalid (message : String)
  | stream (entries : List TarEntry) (final : Option String)
deriving DecidableEq, Repr

/-- The world outside the program: the answer to an HTTP request, given the
requests made before; the decoding of a file content as an archive; and the
output of `fmt.Sprintf` outside the directives of `sprintfScan`. -/
structure Env where
  http : List String → String → HttpResult
  decode : List Nat → Archive
  fmtOther : String → List String → String

/-- The struct `installer.Installer` (installer.go 17-20). -/
structure Installer where
  ModulesPath : String
  CachePath : String
deriving DecidableEq, Repr

/-- `installer.New` (installer.go 23-31); `homeDir` is what `os.UserHomeDir`
returned, the empty string when it failed. -/
def New (homeDir modulesPath : String) : Installer :=
  { ModulesPath := modulesPath, CachePath := filepathJoin [homeDir, ".droy", "cache"] }

/-- `downloadFile` (installer.go 124-143). -/
def downloadFile (env : Env) (s : Sys) (url path : String) : Sys × Option Err :=
  let resp := env.http s.requests url
  let s := { s with requests := s.requests ++ [url] }
  match resp with
  | .failed message => (s, some (.text message))
  | .response statusCode status body bodyErr =>
    if statusCode ≠ 200 then (s, some (.text ("download failed: " ++ status)))
    else
      match osCreate s path with
      | .error e => (s, some (.os e))
      | .ok s =>
        (copyTo s path body, bodyErr.map Err.text)

/-- The loop of `extractTarball` (installer.go 164-196) over the entries the
tar reader returns. -/
def extractEntries (s : Sys) (targetDir : String) :
    List TarEntry → Option String → Sys × Option Err
  | [], none => (s, none)
  | [], some message => (s, some (.text message))
  | header :: rest, final =>
    let target := filepathJoin [targetDir, header.Name]
    match header.Typeflag with
    | .TypeDir =>
      match osMkdirAll s target with
      | (s, some err) => (s, some err)
      | (s, none) => extractEntries s targetDir rest final
    | .TypeReg =>
      match osMkdirAll s (filepathDir target) with
      | (s, some err) => (s, some err)
      | (s, none) =>
        match osCreate s target with
        | .error e => (s, some (.os e))
        | .ok s =>
          match header.dataErr with
          | some message => (copyTo s target header.data, some (.text message))
          | none => extractEntries (copyTo s target header.data) targetDir rest final
    | .other => extractEntries s targetDir rest final

/-- `extractTarball` (installer.go 145-199).  The archive is decoded from the
content the file has when it is opened. -/
def extractTarball (env : Env) (s : Sys) (tarballPath targetDir : String) : Sys × Option Err :=
  match osStat s tarballPath with
  | .error e => (s, some (.os e))
  | .ok .dir => (s, some (.os .EISDIR))
  | .ok (.file bytes) =>
    match env.decode bytes with
    | .invalid message => (s, some (.text message))
    | .stream entries final =>
      match osMkdirAll s targetDir with
      | (s, some err) => (s, some err)
      | (s, none) => extractEntries s targetDir entries final

/-- The URL built at installer.go 99: the name is part of the format. -/
def tarballURL (env : Env) (name version : String) : String :=
  Sprintf env.fmtOther ("https://registry.droy-lang.org/%s/-/" ++ name ++ "-%s.tgz")
    [name, version]

/-- The cache path built at installer.go 102. -/
def tarballPath (env : Env) (i : Installer) (name version : String) : String :=
  filepathJoin [i.CachePath, Sprintf env.fmtOther "%s-%s.tgz" [name, version]]

/-- `Installer.installFromRegistry` (installer.go 95-122). -/
def installFromRegistry (env : Env) (i : Installer) (s : Sys) (name version : String) :
    Sys × Option Err :=
  match osMkdirAll s i.CachePath with
  | (s, some err) => (s, some (.wrap "failed to create cache directory" err))
  | (s, none) =>
    let downloaded :=
      if isNotExist (osStat s (tarballPath env i name version)) then
        downloadFile env s (tarballURL env name version) (tarballPath env i name version)
      else (s, none)
    match downloaded with
    | (s, some err) => (s, some (.wrap "failed to download package" err))
    | (s, none) =>
      let targetDir := filepathJoin [i.ModulesPath, name]
      match extractTarball env s (tarballPath env i name version) targetDir with
      | (s, some err) => (s, some (.wrap "failed to extract package" err))
      | (s, none) => (s, none)

/-! ## cmd/install -/

/-- The loop of `installAllDependencies` (install.go 95-103) over the entries
of `resolved` in the order they are visited, from the state `s` and the count
`installed`.  `install s name version` is the call `inst.Install(name,
version)`: the state after it and the returned error. -/
def installLoop {σ : Type} (install : σ → String → String → σ × Option Err) :
    σ → Nat → List (String × String) → σ × Nat
  | s, installed, [] => (s, installed)
  | s, installed, (name, version) :: rest =>
    match install s name version with
    | (s, some _) => installLoop install s installed rest
    | (s, none) => installLoop install s (installed + 1) rest

/-- The part of `installAllDependencies` that follows the resolution
(install.go 90-115): the state after the installs and the two numbers of the
report `Installed %d/%d packages`, `installed` and `total`.  The lines before
read `droy.toml` and resolve its dependencies into `resolved`; the lock file
written after the loop has no part in the two numbers. -/
def installAllDependencies {σ : Type} (install : σ → String → String → σ × Option Err)
    (s : σ) (resolved : List (String × String)) : σ × Nat × Nat :=
  let total := resolved.length
  let installed := 0
  match installLoop install s installed resolved with
  | (s, installed) => (s, installed, total)

/-- An `Install` that also records each of its calls with its outcome, oldest
first: the name, the version, and whether the call returned no error. -/
def recordCalls {σ : Type} (install : σ → String → String → σ × Option Err) :
    σ × List (String × String × Bool) → String → String →
      (σ × List (String × String × Bool)) × Option Err :=
  fun st name version =>
    match install st.1 name version with
    | (s, err) => ((s, st.2 ++ [(name, version, err.isNone)]), err)

/-! ## The machine of the installer scenarios -/

/-- Bytes standing for the archive of package `p` 1.0.0 as the registry
serves it. -/
def tarballServed : List Nat := [31, 139, 8, 0]

/-- The served archive with its last byte changed. -/
def tarballAltered : List Nat := [31, 139, 8, 1]

/-- A world in which the registry serves `tarballServed` for `p` 1.0.0, cuts
the body of every other download short after three bytes, and in which the
served bytes decode to the one file `index.droy` with content `[100]`, the
altered bytes to the same file with content `[101]`, and no other bytes are a
gzip stream. -/
def envDemo : Env where
  http _ url :=
    if url = "https://registry.droy-lang.org/p/-/p-1.0.0.tgz" then
      .response 200 "200 OK" tarballServed none
    else .response 200 "200 OK" [31, 139, 8] (some "unexpected EOF")
  decode bytes :=
    if bytes = tarballServed then .stream [⟨"index.droy", .TypeReg, [100], none⟩] none
    else if bytes = tarballAltered then .stream [⟨"index.droy", .TypeReg, [101], none⟩] none
    else .invalid "gzip: invalid header"
  fmtOther _ _ := ""

/-- The installer of the command line, with home directory `/home`. -/
def instDemo : Installer := New "/home" "droy_modules"

/-- A machine with working directory `/work` and an empty cache. -/
def sysEmpty : Sys where
  cwd := ["work"]
  files := [(["work"], .dir), (["home"], .dir), (["home", ".droy"], .dir),
    (["home", ".droy", "cache"], .dir)]
  requests := []

/-- A machine whose cache holds the altered archive for `p` 1.0.0. -/
def sysAltered : Sys where
  cwd := ["work"]
  files := [(["work"], .dir), (["home"], .dir), (["home", ".droy"], .dir),
    (["home", ".droy", "cache"], .dir),
    (["home", ".droy", "cache", "p-1.0.0.tgz"], .file tarballAltered)]
  requests := []

/-- A machine with an empty cache in which an earlier installation of `p`
left the file `old.droy` in the module directory. -/
def sysOld : Sys where
  cwd := ["work"]
  files := [(["work"], .dir), (["home"], .dir), (["home", ".droy"], .dir),
    (["home", ".droy", "cache"], .dir), (["work", "droy_modules"], .dir),
    (["work", "droy_modules", "p"], .dir),
    (["work", "droy_modules", "p", "old.droy"], .file [7])]
  requests := []

/-- A machine whose cache holds, for `q` 1.0.0, three bytes that are no gzip
stream. -/
def sysPartial : Sys where
  cwd := ["work"]
  files := [(["work"], .dir), (["home"], .dir), (["home", ".droy"], .dir),
    (["home", ".droy", "cache"], .dir),
    (["home", ".droy", "cache", "q-1.0.0.tgz"], .file [31, 139, 8])]
  requests := []

/-! ## pkg/installer: removal, GitHub installs, `Install` and `Uninstall` -/

/-- The test `endsWithDot` of Go `os.RemoveAll`: the path is `.` or ends in
`/.`. -/
def endsWithDot (path : String) : Bool :=
  decide (path = ".") || "/.".data.isSuffixOf path.data

/-- Go `os.RemoveAll(path)`: nothing happens for the empty path; a path that
ends in a dot is refused with `EINVAL`; a path that does not exist is no
error; otherwise the node and everything below it are removed.  At the root
everything below is removed and the root itself stays, with `EBUSY`.  The
working directory is taken not to be among the removed directories. -/
def osRemoveAll (s : Sys) (path : String) : Sys × Option Err :=
  if path = "" then (s, none)
  else if endsWithDot path then (s, some (.os .EINVAL))
  else
    let p := resolvePath s.cwd path
    if p = [] then ({ s with files := [] }, some (.os .EBUSY))
    else
      match lookupFrom s.files [] p with
      | .error .ENOENT => (s, none)
      | .error e => (s, some (.os e))
      | .ok _ => ({ s with files := s.files.filter (fun e => !(p.isPrefixOf e.1)) }, none)

/-- The fields of go-git `CloneOptions` that `installFromGitHub` sets, apart
from `Progress`; an unset `ReferenceName` is the empty string. -/
structure CloneOptions where
  URL : String
  ReferenceName : String
  SingleBranch : Bool
deriving DecidableEq, Repr

/-- The options built at installer.go 74-85 for an owner, a repository name
and a version. -/
def cloneOptionsFor (owner repoName version : String) : CloneOptions :=
  let cloneURL := "https://github.com/" ++ owner ++ "/" ++ repoName ++ ".git"
  if version ≠ "latest" ∧ version ≠ "*" then
    { URL := cloneURL, ReferenceName := "refs/tags/" ++ version, SingleBranch := true }
  else { URL := cloneURL, ReferenceName := "", SingleBranch := false }

/-- The files of a work tree written below `dir`, each with the directories
above it. -/
def writeTree (s : Sys) (dir : String) : List (String × List Nat) → Sys × Option Err
  | [] => (s, none)
  | (name, content) :: rest =>
    match osMkdirAll s (filepathDir (filepathJoin [dir, name])) with
    | (s, some err) => (s, some err)
    | (s, none) =>
      match osCreate s (filepathJoin [dir, name]) with
      | .error e => (s, some (.os e))
      | .ok s => writeTree (copyTo s (filepathJoin [dir, name]) content) dir rest

/-- The call `git.PlainClone(path, false, options)` as far as the installer
depends on it: `git options` is what the remote gives for the request, an
error or the files of the work tree, names relative to its root; a successful
clone creates `path` and writes the files below it. -/
def PlainClone (git : CloneOptions → Except String (List (String × List Nat))) (s : Sys)
    (path : String) (options : CloneOptions) : Sys × Option Err :=
  match git options with
  | .error message => (s, some (.text message))
  | .ok files =>
    match osMkdirAll s path with
    | (s, some err) => (s, some err)
    | (s, none) => writeTree s path files

/-- The target directory of `installFromGitHub` (installer.go 68) for a name
with three parts or more. -/
def githubTargetDir (i : Installer) (repo : String) : String :=
  filepathJoin [i.ModulesPath, (Split repo '/').getD 2 ""]

/-- `Installer.installFromGitHub` (installer.go 57-93). -/
def installFromGitHub (git : CloneOptions → Except String (List (String × List Nat)))
    (i : Installer) (s : Sys) (repo version : String) : Sys × Option Err :=
  let parts := Split repo '/'
  if parts.length < 3 then (s, some (.text "invalid GitHub repository format"))
  else
    let owner := parts.getD 1 ""
    let repoName := parts.getD 2 ""
    let targetDir := filepathJoin [i.ModulesPath, repoName]
    let s := (osRemoveAll s targetDir).1
    match PlainClone git s targetDir (cloneOptionsFor owner repoName version) with
    | (s, some err) => (s, some (.wrap "failed to clone repository" err))
    | (s, none) => (s, none)

/-- `Installer.Install` (installer.go 34-46). -/
def Install (env : Env) (git : CloneOptions → Except String (List (String × List Nat)))
    (i : Installer) (s : Sys) (name version : String) : Sys × Option Err :=
  match osMkdirAll s i.ModulesPath with
  | (s, some err) => (s, some (.wrap "failed to create modules directory" err))
  | (s, none) =>
    if HasPrefix name "github.com/" then installFromGitHub git i s name version
    else installFromRegistry env i s name version

/-- `Installer.Uninstall` (installer.go 49-55). -/
def Uninstall (i : Installer) (s : Sys) (name : String) : Sys × Option Err :=
  let pkgPath := filepathJoin [i.ModulesPath, name]
  match osRemoveAll s pkgPath with
  | (s, some err) => (s, some (.wrap "failed to remove package" err))
  | (s, none) => (s, none)

/-- A remote on which `github.com/owner/repo` exists, with the single file
`main.droy`, and no other repository does. -/
def gitDemo : CloneOptions → Except String (List (String × List Nat)) :=
  fun options =>
    if options.URL = "https://github.com/owner/repo.git" then .ok [("main.droy", [1])]
    else .error "repository not found"

/-- A world in which the archive served for every package holds one file,
named `../../outside.droy`. -/
def envSlip : Env where
  http _ _ := .response 200 "200 OK" [31, 139, 8, 2] none
  decode bytes :=
    if bytes = [31, 139, 8, 2] then
      .stream [⟨"../../outside.droy", .TypeReg, [66], none⟩] none
    else .invalid "gzip: invalid header"
  fmtOther _ _ := ""

/-! ## pkg/registry: publishing -/

/-- Modelled from the spec: the type `config.Package` is declared in
`pkg/config`, which is not among the sources; these are the two fields of it
that `Registry.Publish` reads, the name and the version of the package. -/
structure Package where
  Name : String
  Version : String
deriving DecidableEq, Repr

/-- A client of the registry at `URL` (registry.go 15-18), without its HTTP
client. -/
structure Registry where
  URL : String
deriving DecidableEq, Repr

/-- An HTTP request as `Publish` builds it: method, URL, header fields and the
bytes of the body. -/
structure Request where
  Method : String
  URL : String
  Header : List (String × String)
  Body : List Nat
deriving DecidableEq, Repr

/-- An HTTP response as `Publish` reads it. -/
structure Response where
  StatusCode : Nat
  Status : String
  Body : String
deriving DecidableEq, Repr

/-- The world of `Publish`: `urlError url` is the error of `http.NewRequest`
for a URL it cannot parse, and `send request` the outcome of
`HTTPClient.Do(request)`. -/
structure PublishEnv where
  urlError : String → Option String
  send : Request → Except String Response

/-- `Registry.Publish` (registry.go 126-158): the request handed to
`HTTPClient.Do`, when the function gets that far, and the returned error.  The
URL is `fmt.Sprintf("%s/%s", r.URL, pkg.Name)`, the two strings with a slash
between them.  The header keys are written in their canonical form already,
so `Header.Set` stores them as they are.  `os.Open` also opens a directory:
the request is then built and handed to the client all the same, with a body
that yields no byte, and the client fails on reading it. -/
def Publish (net : PublishEnv) (s : Sys) (r : Registry) (pkg : Package) (tarballPath : String) :
    Option Request × Option Err :=
  let url := r.URL ++ "/" ++ pkg.Name
  match osStat s tarballPath with
  | .error e => (none, some (.wrap "failed to open tarball" (.os e)))
  | .ok file =>
    match net.urlError url with
    | some message => (none, some (.wrap "failed to create request" (.text message)))
    | none =>
      let header := mapSet (mapSet [] "Content-Type" "application/gzip")
        "X-Droy-Version" pkg.Version
      match file with
      | .dir =>
        (some { Method := "PUT", URL := url, Header := header, Body := [] },
          some (.wrap "failed to publish" (.os .EISDIR)))
      | .file bytes =>
        let req : Request := { Method := "PUT", URL := url, Header := header, Body := bytes }
        match net.send req with
        | .error message => (some req, some (.wrap "failed to publish" (.text message)))
        | .ok resp =>
          if resp.StatusCode ≠ 201 ∧ resp.StatusCode ≠ 200 then
            (some req, some (.text ("publish failed: " ++ resp.Status ++ " - " ++ resp.Body)))
          else (some req, none)

/-- A registry server that accepts every upload. -/
def netAccept : PublishEnv where
  urlError _ := none
  send _ := .ok ⟨201, "201 Created", ""⟩

/-- A remote on which no registry document exists and the latest release of
every GitHub repository has the tag `v1.2.0`. -/
def remoteTag : Remote where
  package name := .error ("package not found: " ++ name)
  release _ _ := some "v1.2.0"

/-! ## Conflicts recorded over a sequence of demands -/

/-- Of the demands `(name, constraint)`, made in this order, those for `name`
that come after the first one, normalised, and that the version stored at the
first demand does not satisfy. -/
def laterUnsatisfied (w : Remote) (name : String) (demands : List (String × String)) :
    List String :=
  match demands.filter (fun d => decide (d.1 = name)) with
  | [] => []
  | first :: later =>
    (later.map (fun d => normalizeVersionSpec d.2)).filter
      (fun c => !satisfies (storedVersion w name first.2) c)

/-- The entry of a conflict table after the constraints `new` were appended
one by one to the entry `old`: unchanged when there is none to append. -/
def extendRecorded (old : Option (List String)) (new : List String) : Option (List String) :=
  if new = [] then old else some (old.getD [] ++ new)

/-! ## Relations between file systems -/

/-- The file system `fs'` is `fs` with some directories added: every path has
the node it had, or had none and now is a directory. -/
def DirsAdded (fs fs' : List (List String × Node)) : Prop :=
  ∀ k, nodeAt fs' k = nodeAt fs k ∨ (nodeAt fs k = none ∧ nodeAt fs' k = some .dir)

/-- Every node of `fs` still exists in `fs'`, and a directory of `fs` still is
a directory; the content of a file may differ. -/
def Grows (fs fs' : List (List String × Node)) : Prop :=
  ∀ k n, nodeAt fs k = some n → ∃ n', nodeAt fs' k = some n' ∧ (n = .dir → n' = .dir)

/-! ## pkg/resolver: the dependency tree -/

/-- The struct `resolver.DependencyNode` (resolver.go 153-159): name, version,
the `Resolved` flag and the map of children.  The `Parent` pointer, which no
function sets or reads, is left out. -/
inductive DependencyNode where
  | mk (Name Version : String) (Resolved : Bool)
      (Children : List (String × DependencyNode))

/-- The struct `resolver.DependencyTree` (resolver.go 148-150). -/
structure DependencyTree where
  Root : DependencyNode

mutual
/-- `DependencyNode.flatten` (resolver.go 168-175): the node is written into
`result` unless its name is `root`, then every child is flattened into it. -/
def DependencyNode.flatten : DependencyNode → List (String × String) → List (String × String)
  | .mk name version _ children, result =>
    flattenChildren children (if name ≠ "root" then mapSet result name version else result)
/-- The loop of `flatten` over the children of a node. -/
def flattenChildren :
    List (String × DependencyNode) → List (String × String) → List (String × String)
  | [], result => result
  | (_, child) :: rest, result => flattenChildren rest (child.flatten result)
end

/-- `DependencyTree.Flatten` (resolver.go 162-166). -/
def DependencyTree.Flatten (t : DependencyTree) : List (String × String) :=
  t.Root.flatten []

/-- The loop of `ResolveTree` (resolver.go 133-142): one childless node per
entry of `deps`, stored under its name among the children of the root. -/
def resolveTreeLoop :
    List (String × DependencyNode) → List (String × String) → List (String × DependencyNode)
  | children, [] => children
  | children, (name, version) :: rest =>
    resolveTreeLoop (mapSet children name (.mk name version false [])) rest

/-- `Resolver.ResolveTree` (resolver.go 124-145). -/
def ResolveTree (deps : List (String × String)) : Except String DependencyTree :=
  .ok { Root := .mk "root" "1.0.0" false (resolveTreeLoop [] deps) }

/-! ## cmd/install: package specifications -/

/-- The table `packageAliases` (install.go 158-214). -/
def packageAliases : List (String × String) :=
  [("http", "droy-http"), ("json", "droy-json"), ("xml", "droy-xml"), ("cli", "droy-cli"),
    ("test", "droy-test"), ("fs", "droy-fs"), ("net", "droy-net"), ("crypto", "droy-crypto"),
    ("db", "droy-db"), ("web", "droy-web"), ("log", "droy-log"), ("time", "droy-time"),
    ("regex", "droy-regex"), ("math", "droy-math"), ("string", "droy-string"),
    ("array", "droy-array"), ("object", "droy-object"), ("event", "droy-event"),
    ("stream", "droy-stream"), ("buffer", "droy-buffer"), ("path", "droy-path"),
    ("os", "droy-os"), ("process", "droy-process"), ("env", "droy-env"),
    ("color", "droy-color"), ("table", "droy-table"), ("chart", "droy-chart"),
    ("image", "droy-image"), ("audio", "droy-audio"), ("video", "droy-video"),
    ("websocket", "droy-websocket"), ("graphql", "droy-graphql"), ("rest", "droy-rest"),
    ("auth", "droy-auth"), ("jwt", "droy-jwt"), ("oauth", "droy-oauth"),
    ("email", "droy-email"), ("sms", "droy-sms"), ("cache", "droy-cache"),
    ("queue", "droy-queue"), ("scheduler", "droy-scheduler"), ("worker", "droy-worker"),
    ("task", "droy-task"), ("job", "droy-job"), ("cron", "droy-cron"),
    ("backup", "droy-backup"), ("sync", "droy-sync"), ("async", "droy-async"),
    ("promise", "droy-promise"), ("future", "droy-future"), ("channel", "droy-channel"),
    ("mutex", "droy-mutex"), ("semaphore", "droy-semaphore"), ("pool", "droy-pool"),
    ("worker-pool", "droy-worker-pool")]

/-- The scan of `strings.LastIndex` for a separator of one character: `pos` is
the index of the head of the list, `found` the last index seen so far. -/
def lastIndexFrom (c : Char) : List Char → Nat → Int → Int
  | [], _, found => found
  | x :: xs, pos, found => lastIndexFrom c xs (pos + 1) (if x = c then (pos : Int) else found)

/-- Go `strings.LastIndex(s, sep)` for a separator of one character, counted
in characters: the index of its last occurrence, `-1` when there is none. -/
def LastIndex (s : String) (c : Char) : Int :=
  lastIndexFrom c s.data 0 (-1)

/-- `parsePackageSpec` (install.go 216-234); the slices `spec[:idx]` and
`spec[idx+1:]` are the characters before and after the index. -/
def parsePackageSpec (spec : String) : String × String :=
  let idx := LastIndex spec '@'
  let name : String := if idx > 0 then ⟨spec.data.take idx.toNat⟩ else spec
  let version : String := if idx > 0 then ⟨spec.data.drop (idx.toNat + 1)⟩ else "latest"
  match mapGet packageAliases name with
  | some aliased => (aliased, version)
  | none => (name, version)

/-! ## Lemmas on the primitives -/

theorem strLess_append_left (p x : List Char) : strLess (p ++ x) p = false := by
  induction p with
  | nil => cases x <;> rfl
  | cons a p ih => simp [strLess, ih]

theorem append_dash_ne (v t : String) : v ++ "-" ++ t ≠ v := by
  intro h
  have hl := congrArg String.length h
  have h1 : "-".length = 1 := rfl
  rw [String.length_append, String.length_append, h1] at hl
  omega

theorem TrimSpace_of_all_space (s : String) (h : ∀ ch ∈ s.data, isSpace ch = true) :
    TrimSpace s = "" := by
  have h1 : s.data.dropWhile isSpace = [] := by
    rw [List.dropWhile_eq_nil_iff]
    exact h
  simp [TrimSpace, h1]

theorem matchCmpPrefix_of_head (c : Char) (rest : List Char) (hc : isCmpChar c = true) :
    matchCmpPrefix ⟨c :: rest⟩ = true := by
  simp [matchCmpPrefix, List.takeWhile, hc]

theorem satisfies_of_matchCmpPrefix (c spec : String) (h : matchCmpPrefix spec = true) :
    satisfies c spec = true := by
  unfold satisfies
  split_ifs <;> rfl

theorem matchCmpPrefix_false_of_head (s : String) (hlt : s.data.head? ≠ some '<')
    (hgt : s.data.head? ≠ some '>') (heq : s.data.head? ≠ some '=') :
    matchCmpPrefix s = false := by
  obtain ⟨l⟩ := s
  cases l with
  | nil => rfl
  | cons a l =>
    have ha : isCmpChar a = false := by
      simp only [List.head?_cons, ne_eq, Option.some.injEq] at hlt hgt heq
      simp [isCmpChar, hlt, hgt, heq]
    simp [matchCmpPrefix, List.takeWhile, ha]

theorem HasPrefix_single_false (s : String) (c : Char) (h : s.data.head? ≠ some c) :
    HasPrefix s ⟨[c]⟩ = false := by
  obtain ⟨l⟩ := s
  cases l with
  | nil => rfl
  | cons a l =>
    simp only [List.head?_cons, ne_eq, Option.some.injEq] at h
    simp [HasPrefix, List.isPrefixOf, h]
    exact fun e => h e.symm

/-! ## The claims -/

/-- C1: `VersionCompare` orders versions by their strings, so a component of
two digits sorts before one of one digit with a larger leading digit:
`VersionCompare("1.9.0", "1.10.0")` and `VersionCompare("9.0.0", "10.0.0")`
are both `1`, where the order of the integer triples gives `-1`. -/
theorem VersionCompare_multi_digit :
    VersionCompare "1.9.0" "1.10.0" = 1 ∧ VersionCompare "9.0.0" "10.0.0" = 1 := by
  decide

/-- C2: for every version `v` and tag `t`, `VersionCompare(v + "-" + t, v)` is
`1`: the tagged string extends `v`, so the string order puts it after `v`,
where the pre-release rule puts it before.  In particular
`VersionCompare("1.0.0-alpha", "1.0.0") = 1`. -/
theorem VersionCompare_prerelease_after :
    (∀ v t : String, VersionCompare (v ++ "-" ++ t) v = 1) ∧
      VersionCompare "1.0.0-alpha" "1.0.0" = 1 := by
  refine ⟨fun v t => ?_, by decide⟩
  unfold VersionCompare
  rw [if_neg (append_dash_ne v t)]
  have h : (v ++ "-" ++ t).data = v.data ++ ('-' :: t.data) := by
    simp [String.data_append]
  rw [h, strLess_append_left]
  rfl

/-- C3: `satisfies(c, "^1.2.3")` is `true` for every candidate `c`, whatever
its major component and whether or not it is below 1.2.3; in particular for
`"2.0.0"` and `"1.2.2"`. -/
theorem satisfies_caret_always :
    (∀ c : String, satisfies c "^1.2.3" = true) ∧
      satisfies "2.0.0" "^1.2.3" = true ∧ satisfies "1.2.2" "^1.2.3" = true := by
  refine ⟨fun c => ?_, by decide, by decide⟩
  unfold satisfies
  rw [if_neg (by decide), if_pos (by decide)]

/-- C4: `satisfies(c, "~1.2.3")` is `true` for every candidate `c`, also when
the minor component differs; in particular for `"1.3.0"`. -/
theorem satisfies_tilde_always :
    (∀ c : String, satisfies c "~1.2.3" = true) ∧ satisfies "1.3.0" "~1.2.3" = true := by
  refine ⟨fun c => ?_, by decide⟩
  unfold satisfies
  rw [if_neg (by decide), if_neg (by decide), if_pos (by decide)]

/-- C5: for every candidate `c` and every version `v`, `satisfies` is `true`
on each of the constraints `>=v`, `<=v`, `>v` and `<v`, whatever the relation of
`c` to `v`; in particular `satisfies("0.9.0", ">=1.0.0") = true`. -/
theorem satisfies_comparison_always :
    (∀ c v : String, satisfies c (">=" ++ v) = true ∧ satisfies c ("<=" ++ v) = true ∧
        satisfies c (">" ++ v) = true ∧ satisfies c ("<" ++ v) = true) ∧
      satisfies "0.9.0" ">=1.0.0" = true := by
  refine ⟨fun c v => ⟨?_, ?_, ?_, ?_⟩, by decide⟩ <;>
    exact satisfies_of_matchCmpPrefix _ _ (matchCmpPrefix_of_head _ _ (by decide))

/-- C6: for a constraint `s` that is neither `"*"` nor `"latest"` and does not
start with `^`, `~`, `<`, `>` or `=`, `satisfies(c, s)` is `true` if and only if
`c` and `s` are the same string. -/
theorem satisfies_exact_iff (c s : String) (hstar : s ≠ "*") (hlatest : s ≠ "latest")
    (hcaret : s.data.head? ≠ some '^') (htilde : s.data.head? ≠ some '~')
    (hlt : s.data.head? ≠ some '<') (hgt : s.data.head? ≠ some '>')
    (heq : s.data.head? ≠ some '=') :
    satisfies c s = true ↔ c = s := by
  have h1 : HasPrefix s "^" = false := HasPrefix_single_false s '^' hcaret
  have h2 : HasPrefix s "~" = false := HasPrefix_single_false s '~' htilde
  have h3 : matchCmpPrefix s = false := matchCmpPrefix_false_of_head s hlt hgt heq
  unfold satisfies
  rw [if_neg (by simp [hstar, hlatest]), h1, h2, h3]
  simp

/-- Witness of C6: the exact constraint `"1.2.3"` accepts `"1.2.3"` and
rejects `"1.2.4"`. -/
theorem satisfies_exact_iff_witness :
    (satisfies "1.2.3" "1.2.3" = true ↔ "1.2.3" = "1.2.3") ∧
      (satisfies "1.2.4" "1.2.3" = true ↔ "1.2.4" = "1.2.3") ∧
      satisfies "1.2.3" "1.2.3" = true ∧ satisfies "1.2.4" "1.2.3" = false :=
  ⟨satisfies_exact_iff "1.2.3" "1.2.3" (by decide) (by decide) (by decide) (by decide)
      (by decide) (by decide) (by decide),
    satisfies_exact_iff "1.2.4" "1.2.3" (by decide) (by decide) (by decide) (by decide)
      (by decide) (by decide) (by decide),
    by decide, by decide⟩

/-- C7: `satisfies(c, "*")` and `satisfies(c, "latest")` are `true` for every
candidate `c`; `normalizeVersionSpec` maps a constraint made of white space
only (the empty one included) to `"latest"`, so such a constraint accepts every
candidate too. -/
theorem satisfies_any (c ws : String) (hws : ∀ ch ∈ ws.data, isSpace ch = true) :
    satisfies c "*" = true ∧ satisfies c "latest" = true ∧
      normalizeVersionSpec ws = "latest" ∧
      satisfies c (normalizeVersionSpec ws) = true := by
  have hn : normalizeVersionSpec ws = "latest" := by
    unfold normalizeVersionSpec
    simp [TrimSpace_of_all_space ws hws]
  have hs : satisfies c "*" = true := by
    unfold satisfies
    rw [if_pos (Or.inl rfl)]
  have hl : satisfies c "latest" = true := by
    unfold satisfies
    rw [if_pos (Or.inr rfl)]
  exact ⟨hs, hl, hn, by rw [hn]; exact hl⟩

/-- Witness of C7: the constraints `""` and `" \t "` are normalised to
`"latest"` and accept the candidate `"3.1.4"`. -/
theorem satisfies_any_witness :
    (∀ ch ∈ " \t ".data, isSpace ch = true) ∧ (∀ ch ∈ "".data, isSpace ch = true) ∧
      satisfies "3.1.4" "*" = true ∧ satisfies "3.1.4" "latest" = true ∧
      normalizeVersionSpec " \t " = "latest" ∧
      satisfies "3.1.4" (normalizeVersionSpec " \t ") = true ∧
      normalizeVersionSpec "" = "latest" ∧
      satisfies "3.1.4" (normalizeVersionSpec "") = true :=
  have h1 : ∀ ch ∈ " \t ".data, isSpace ch = true := by decide
  have h2 : ∀ ch ∈ "".data, isSpace ch = true := by decide
  ⟨h1, h2, (satisfies_any "3.1.4" " \t " h1).1, (satisfies_any "3.1.4" " \t " h1).2.1,
    (satisfies_any "3.1.4" " \t " h1).2.2.1, (satisfies_any "3.1.4" " \t " h1).2.2.2,
    (satisfies_any "3.1.4" "" h2).2.2.1, (satisfies_any "3.1.4" "" h2).2.2.2⟩

/-- C8: with the direct dependency `a` under the exact constraint `"1.2.3"` and
a registry whose document for `a` names version `3.0.0`, `Resolve` returns the
map `{a: 3.0.0}` without error, although `"3.0.0"` does not satisfy the
constraint: the version the registry names is stored unchecked. -/
theorem Resolve_stores_unchecked_version :
    Resolve remoteThree [("a", "1.2.3")] = .ok [("a", "3.0.0")] ∧
      satisfies "3.0.0" (normalizeVersionSpec "1.2.3") = false := by
  decide

/-- C9: in the end-to-end scenario `Resolve` returns `{a: 1.2.0}` and no entry
for `b`; whatever the registry answers, the result for the direct dependencies
`{a: ^1.0.0}` is a map with the single key `a`, so no dependency of a resolved
package is added. -/
theorem Resolve_no_transitive :
    Resolve remoteScenario [("a", "^1.0.0")] = .ok [("a", "1.2.0")] ∧
      mapGet [("a", "1.2.0")] "b" = none ∧
      ∀ w : Remote, ∃ v, Resolve w [("a", "^1.0.0")] = .ok [("a", v)] := by
  refine ⟨by decide, by decide, fun w => ?_⟩
  have hn : normalizeVersionSpec "^1.0.0" = "^1.0.0" := by decide
  cases hg : GetLatestVersion w "a" with
  | error e => exact ⟨"^1.0.0", by simp [Resolve, resolveLoop, resolveDependency, mapGet, mapSet, resolveResult, hn, hg]⟩
  | ok v => exact ⟨v, by simp [Resolve, resolveLoop, resolveDependency, mapGet, mapSet, resolveResult, hn, hg]⟩

/-- C10: with `C` resolved to `1.5.0` under `^1.0.0`, a second
`resolveDependency` of `C` under `^2.0.0` records no conflict, and the end of
`Resolve` then returns the resolved map `{C: 1.5.0}` instead of the conflict
error; under the exact constraint `2.0.0` the same call does record the
conflict and the end of `Resolve` is the conflict error. -/
theorem resolveDependency_caret_no_conflict :
    resolveDependency remoteC ⟨[], []⟩ "C" "^1.0.0" = (⟨[("C", "1.5.0")], []⟩, none) ∧
      resolveDependency remoteC ⟨[("C", "1.5.0")], []⟩ "C" "^2.0.0" =
        (⟨[("C", "1.5.0")], []⟩, none) ∧
      resolveResult ⟨[("C", "1.5.0")], []⟩ = .ok [("C", "1.5.0")] ∧
      resolveDependency remoteC ⟨[("C", "1.5.0")], []⟩ "C" "2.0.0" =
        (⟨[("C", "1.5.0")], [("C", ["2.0.0"])]⟩, none) ∧
      resolveResult ⟨[("C", "1.5.0")], [("C", ["2.0.0"])]⟩ =
        .error "version conflicts:\n  C: [2.0.0]" := by
  decide

/-! ## Lemmas on maps and on the resolver loop -/

theorem strLess_irrefl_aux (a b : List Char) : strLess a b = true → strLess b a = false := by
  induction a generalizing b with
  | nil => cases b <;> simp [strLess]
  | cons x a ih =>
    cases b with
    | nil => simp [strLess]
    | cons y b =>
      simp only [strLess]
      split_ifs <;> first | omega | simp | exact ih b

theorem strLess_le_trans (a b c : List Char) :
    strLess b a = false → strLess c b = false → strLess c a = false := by
  induction a generalizing b c with
  | nil => cases c <;> simp [strLess]
  | cons x a ih =>
    cases b with
    | nil => simp [strLess]
    | cons y b =>
      cases c with
      | nil => simp [strLess]
      | cons z c =>
        simp only [strLess]
        split_ifs <;> first | omega | simp | exact ih b c

instance strLe_total : IsTotal String strLe where
  total a b := by
    unfold strLe
    cases h : strLess b.data a.data with
    | false => exact Or.inl rfl
    | true => exact Or.inr (strLess_irrefl_aux _ _ h)

instance strLe_trans : IsTrans String strLe where
  trans a b c h1 h2 := strLess_le_trans a.data b.data c.data h1 h2

theorem mapGet_append_single {β : Type} (m : List (String × β)) (k k' : String) (v : β)
    (hk : k ≠ k') : mapGet (m ++ [(k, v)]) k' = mapGet m k' := by
  induction m with
  | nil => simp [mapGet, hk]
  | cons e m ih =>
    obtain ⟨k0, v0⟩ := e
    show (if k0 = k' then some v0 else mapGet (m ++ [(k, v)]) k') = _
    rw [ih]
    rfl

theorem mapSet_of_mapGet_none {β : Type} (m : List (String × β)) (k : String) (v : β)
    (h : mapGet m k = none) : mapSet m k v = m ++ [(k, v)] := by
  induction m with
  | nil => rfl
  | cons e m ih =>
    obtain ⟨k0, v0⟩ := e
    simp only [mapGet] at h
    split_ifs at h with hk
    simp only [mapSet, if_neg hk, ih h, List.cons_append]

theorem resolveDependency_fresh (w : Remote) (r : Resolver) (name spec : String)
    (h : mapGet r.resolved name = none) :
    resolveDependency w r name spec =
      (⟨r.resolved ++ [(name, storedVersion w name spec)], r.conflicts⟩, none) := by
  unfold resolveDependency storedVersion
  simp only [h]
  rw [mapSet_of_mapGet_none _ _ _ h]

theorem resolveLoop_fresh (w : Remote) (deps : List (String × String)) :
    ∀ r : Resolver, (∀ e ∈ deps, mapGet r.resolved e.1 = none) →
      (deps.map Prod.fst).Nodup →
      resolveLoop w r deps =
        (⟨r.resolved ++ deps.map (fun e => (e.1, storedVersion w e.1 e.2)), r.conflicts⟩,
          none) := by
  induction deps with
  | nil => intro r _ _; simp [resolveLoop]
  | cons e deps ih =>
    intro r hfresh hnd
    obtain ⟨name, spec⟩ := e
    have hname : mapGet r.resolved name = none := hfresh (name, spec) (List.mem_cons_self _ _)
    simp only [List.map_cons, List.nodup_cons] at hnd
    simp only [resolveLoop, resolveDependency_fresh w r name spec hname]
    rw [ih _ _ hnd.2]
    · simp
    · intro e he
      have hne : name ≠ e.1 := by
        intro heq
        exact hnd.1 (heq ▸ List.mem_map_of_mem Prod.fst he)
      simp only
      rw [mapGet_append_single _ _ _ _ hne]
      exact hfresh e (List.mem_cons_of_mem _ he)

theorem Resolve_eq_map (w : Remote) (deps : List (String × String))
    (hnd : (deps.map Prod.fst).Nodup) :
    Resolve w deps = .ok (deps.map (fun e => (e.1, storedVersion w e.1 e.2))) := by
  unfold Resolve
  rw [resolveLoop_fresh w deps ⟨[], []⟩ (fun _ _ => rfl) hnd]
  simp [resolveResult]

theorem mapGet_eq_some_iff {β : Type} (m : List (String × β)) (k : String) (v : β)
    (hnd : (m.map Prod.fst).Nodup) : mapGet m k = some v ↔ (k, v) ∈ m := by
  induction m with
  | nil => simp [mapGet]
  | cons e m ih =>
    obtain ⟨k0, v0⟩ := e
    simp only [List.map_cons, List.nodup_cons] at hnd
    simp only [mapGet, List.mem_cons, Prod.mk.injEq]
    split_ifs with hk
    · subst hk
      constructor
      · intro h
        exact Or.inl ⟨rfl, (Option.some.inj h).symm⟩
      · rintro (⟨-, rfl⟩ | h)
        · rfl
        · exact absurd (List.mem_map_of_mem Prod.fst h) hnd.1
    · rw [ih hnd.2]
      constructor
      · exact Or.inr
      · rintro (⟨rfl, -⟩ | h)
        · exact absurd rfl hk
        · exact h

theorem mapGet_perm {β : Type} (m1 m2 : List (String × β)) (hnd : (m1.map Prod.fst).Nodup)
    (hp : m1.Perm m2) (k : String) : mapGet m1 k = mapGet m2 k := by
  have hnd2 : (m2.map Prod.fst).Nodup := (hp.map Prod.fst).nodup_iff.mp hnd
  cases h2 : mapGet m2 k with
  | some v =>
    rw [mapGet_eq_some_iff _ _ _ hnd]
    exact hp.mem_iff.mpr ((mapGet_eq_some_iff _ _ _ hnd2).mp h2)
  | none =>
    cases h1 : mapGet m1 k with
    | none => rfl
    | some v =>
      have := (mapGet_eq_some_iff _ _ _ hnd2).mpr (hp.mem_iff.mp ((mapGet_eq_some_iff _ _ _ hnd).mp h1))
      rw [h2] at this
      exact absurd this (by simp)

theorem mapGet_mapSet_self {β : Type} (m : List (String × β)) (k : String) (v : β) :
    mapGet (mapSet m k v) k = some v := by
  induction m with
  | nil => simp [mapSet, mapGet]
  | cons e m ih =>
    obtain ⟨k0, v0⟩ := e
    by_cases hk : k0 = k
    · simp [mapSet, mapGet, hk]
    · simp [mapSet, mapGet, hk, ih]

theorem formatConflicts_sorted (r : Resolver) :
    ∃ lines : List String,
      formatConflicts r = "version conflicts:\n  " ++ Join lines "\n  " ∧
        lines.Perm (conflictEntries r) ∧ lines.Sorted strLe :=
  ⟨(conflictEntries r).insertionSort strLe, rfl, List.perm_insertionSort _ _,
    List.sorted_insertionSort _ _⟩

/-! ## The claims, continued -/

/-- Counterexample to C11: `C` is resolved under `^1.0.0` and then demanded
as `2.0.0`; the conflict error is `C: [2.0.0]` and does not contain the first
constraint `^1.0.0`.  With conflicts recorded for `a` and `a1`, the entry of
`a1` comes before the entry of `a`, although `a` is the smaller name. -/
theorem formatConflicts_omits_first_constraint :
    resolveDependency remoteC ⟨[], []⟩ "C" "^1.0.0" = (⟨[("C", "1.5.0")], []⟩, none) ∧
      resolveDependency remoteC ⟨[("C", "1.5.0")], []⟩ "C" "2.0.0" =
        (⟨[("C", "1.5.0")], [("C", ["2.0.0"])]⟩, none) ∧
      formatConflicts ⟨[("C", "1.5.0")], [("C", ["2.0.0"])]⟩ =
        "version conflicts:\n  C: [2.0.0]" ∧
      ¬ ("^1.0.0".data <:+: (formatConflicts ⟨[("C", "1.5.0")], [("C", ["2.0.0"])]⟩).data) ∧
      formatConflicts ⟨[], [("a", ["2.0.0"]), ("a1", ["3.0.0"])]⟩ =
        "version conflicts:\n  a1: [3.0.0]\n  a: [2.0.0]" ∧
      strLess "a".data "a1".data = true := by
  decide

/-- Counterexample to C12: with an unreachable registry the lookup of `a`
fails, and `Resolve({a: ^1.0.0})` returns the map `{a: ^1.0.0}` and no error. -/
theorem Resolve_lookup_failure_no_error :
    GetLatestVersion remoteDown "a" = .error "failed to fetch package" ∧
      Resolve remoteDown [("a", "^1.0.0")] = .ok [("a", "^1.0.0")] := by
  decide

/-- C12, amended: when the lookup `GetLatestVersion` fails for a package of
`deps`, `Resolve(deps)` still returns a resolved map and no error, and that
package is a key of the map, with its normalised constraint as the version. -/
theorem Resolve_lookup_failure_fallback (w : Remote) (deps : List (String × String))
    (name spec err : String) (hnd : (deps.map Prod.fst).Nodup) (hmem : (name, spec) ∈ deps)
    (hfail : GetLatestVersion w name = .error err) :
    ∃ resolved, Resolve w deps = .ok resolved ∧
      mapGet resolved name = some (normalizeVersionSpec spec) := by
  refine ⟨_, Resolve_eq_map w deps hnd, ?_⟩
  have hnd2 : ((deps.map (fun e => (e.1, storedVersion w e.1 e.2))).map Prod.fst).Nodup := by
    simpa [List.map_map, Function.comp_def] using hnd
  rw [mapGet_eq_some_iff _ _ _ hnd2]
  have hs : storedVersion w name spec = normalizeVersionSpec spec := by
    simp [storedVersion, hfail]
  rw [← hs]
  exact List.mem_map_of_mem (fun e : String × String => (e.1, storedVersion w e.1 e.2)) hmem

/-- Witness of C12, amended: the dependencies `{a: ^1.0.0, b: ""}` against an
unreachable registry. -/
theorem Resolve_lookup_failure_fallback_witness :
    ∃ resolved, Resolve remoteDown [("a", "^1.0.0"), ("b", "")] = .ok resolved ∧
      mapGet resolved "b" = some (normalizeVersionSpec "") :=
  Resolve_lookup_failure_fallback remoteDown [("a", "^1.0.0"), ("b", "")] "b" ""
    "failed to fetch package" (by decide) (by decide) (by decide)

/-- C13: for a fixed registry and a dependency map (a list with distinct
names), `Resolve` returns no error and the same resolved map in whatever order
the entries are visited: the two results have the same value under every key. -/
theorem Resolve_deterministic (w : Remote) (deps1 deps2 : List (String × String))
    (hnd : (deps1.map Prod.fst).Nodup) (hperm : deps1.Perm deps2) :
    ∃ m1 m2, Resolve w deps1 = .ok m1 ∧ Resolve w deps2 = .ok m2 ∧
      ∀ k, mapGet m1 k = mapGet m2 k := by
  have hnd' : (deps2.map Prod.fst).Nodup := (hperm.map Prod.fst).nodup_iff.mp hnd
  refine ⟨_, _, Resolve_eq_map w deps1 hnd, Resolve_eq_map w deps2 hnd', fun k => ?_⟩
  apply mapGet_perm
  · simpa [List.map_map, Function.comp_def] using hnd
  · exact hperm.map _

/-- Witness of C13: the map `{a: ^1.0.0, b: "", c: 1.2.3}` visited in two
orders. -/
theorem Resolve_deterministic_witness :
    ∃ m1 m2, Resolve remoteScenario [("a", "^1.0.0"), ("b", ""), ("c", "1.2.3")] = .ok m1 ∧
      Resolve remoteScenario [("c", "1.2.3"), ("a", "^1.0.0"), ("b", "")] = .ok m2 ∧
      ∀ k, mapGet m1 k = mapGet m2 k :=
  Resolve_deterministic remoteScenario [("a", "^1.0.0"), ("b", ""), ("c", "1.2.3")]
    [("c", "1.2.3"), ("a", "^1.0.0"), ("b", "")] (by decide) (by decide)

/-- Counterexample to C14: `Resolve({a: "not a version"})` returns a resolved
map and no error, with a registry that answers as with one that does not. -/
theorem Resolve_accepts_unrecognized_constraint :
    Resolve remoteDown [("a", "not a version")] = .ok [("a", "not a version")] ∧
      Resolve remoteThree [("a", "not a version")] = .ok [("a", "3.0.0")] := by
  decide

/-- C14, amended: no constraint string is rejected: `resolveDependency`
returns a nil error for every state, name and constraint, and `Resolve` of a
single dependency returns a resolved map with that name as its only key,
whatever the constraint is. -/
theorem Resolve_never_rejects_constraint (w : Remote) (r : Resolver) (name spec : String) :
    (resolveDependency w r name spec).2 = none ∧
      ∃ v, Resolve w [(name, spec)] = .ok [(name, v)] := by
  constructor
  · unfold resolveDependency
    cases mapGet r.resolved name with
    | none => rfl
    | some v => simp only; split_ifs <;> rfl
  · exact ⟨storedVersion w name spec, by
      simpa using Resolve_eq_map w [(name, spec)] (by simp)⟩

/-! ## Lemmas on `Sprintf` -/

theorem sprintfScan_literal (lit rest : List Char) (args : List String)
    (h : ∀ c ∈ lit, c ≠ '%') :
    sprintfScan false (lit ++ rest) args =
      (sprintfScan false rest args).map (fun out => lit ++ out) := by
  induction lit with
  | nil => simp
  | cons c lit ih =>
    have hc : c ≠ '%' := h c (List.mem_cons_self _ _)
    have ih' := ih (fun d hd => h d (List.mem_cons_of_mem _ hd))
    simp only [List.cons_append, sprintfScan, if_neg hc, List.append_eq, ih', Option.map_map]
    rfl

theorem sprintfScan_operand (rest : List Char) (a : String) (args : List String) :
    sprintfScan false ('%' :: 's' :: rest) (a :: args) =
      (sprintfScan false rest args).map (fun out => a.data ++ out) := by
  simp [sprintfScan]

theorem tarballURL_of_no_percent (env : Env) (name version : String)
    (h : ∀ c ∈ name.data, c ≠ '%') :
    tarballURL env name version =
      "https://registry.droy-lang.org/" ++ name ++ "/-/" ++ name ++ "-" ++ version ++ ".tgz" := by
  have hfmt : ("https://registry.droy-lang.org/%s/-/" ++ name ++ "-%s.tgz").data =
      "https://registry.droy-lang.org/".data ++
        ('%' :: 's' :: ("/-/".data ++ (name.data ++
          ('-' :: '%' :: 's' :: (".tgz".data ++ []))))) := by
    simp [String.data_append]
  have h1 : ∀ c ∈ "https://registry.droy-lang.org/".data, c ≠ '%' := by decide
  have h2 : ∀ c ∈ "/-/".data, c ≠ '%' := by decide
  have h3 : ∀ c ∈ ['-'], c ≠ '%' := by decide
  have h4 : ∀ c ∈ ".tgz".data, c ≠ '%' := by decide
  have hscan : sprintfScan false
      ("https://registry.droy-lang.org/%s/-/" ++ name ++ "-%s.tgz").data [name, version] =
      some ("https://registry.droy-lang.org/".data ++ (name.data ++ ("/-/".data ++
        (name.data ++ ('-' :: (version.data ++ ".tgz".data)))))) := by
    rw [hfmt, sprintfScan_literal _ _ _ h1, sprintfScan_operand,
      sprintfScan_literal _ _ _ h2, sprintfScan_literal _ _ _ h]
    rw [show ('-' :: '%' :: 's' :: (".tgz".data ++ [])) =
      ['-'] ++ ('%' :: 's' :: (".tgz".data ++ [])) from rfl]
    rw [sprintfScan_literal _ _ _ h3, sprintfScan_operand, sprintfScan_literal _ _ _ h4]
    simp [sprintfScan, extraOperands]
  unfold tarballURL Sprintf
  rw [hscan]
  apply String.ext
  simp [String.data_append]

theorem Sprintf_tgz (other : String → List String → String) (name version : String) :
    Sprintf other "%s-%s.tgz" [name, version] = name ++ "-" ++ version ++ ".tgz" := by
  have hfmt : "%s-%s.tgz".data = '%' :: 's' :: (['-'] ++ ('%' :: 's' :: (".tgz".data ++ []))) :=
    rfl
  have h3 : ∀ c ∈ ['-'], c ≠ '%' := by decide
  have h4 : ∀ c ∈ ".tgz".data, c ≠ '%' := by decide
  unfold Sprintf
  rw [hfmt, sprintfScan_operand, sprintfScan_literal _ _ _ h3, sprintfScan_operand,
    sprintfScan_literal _ _ _ h4]
  simp only [sprintfScan, extraOperands, Option.map_some']
  apply String.ext
  simp [String.data_append]

/-! ## Lemmas on the file system -/

theorem fsGet_fsSet (fs : List (List String × Node)) (p k : List String) (n : Node) :
    fsGet (fsSet fs p n) k = if p = k then some n else fsGet fs k := by
  induction fs with
  | nil => simp [fsSet, fsGet]
  | cons e fs ih =>
    obtain ⟨p0, n0⟩ := e
    by_cases h0 : p0 = p
    · subst h0
      by_cases hk : p0 = k <;> simp [fsSet, fsGet, hk]
    · by_cases hk : p0 = k
      · subst hk
        have : ¬ p = p0 := fun h => h0 h.symm
        simp [fsSet, fsGet, h0, this]
      · simp [fsSet, fsGet, h0, hk, ih]

theorem nodeAt_fsSet (fs : List (List String × Node)) (p k : List String) (n : Node)
    (hp : p ≠ []) : nodeAt (fsSet fs p n) k = if p = k then some n else nodeAt fs k := by
  unfold nodeAt
  by_cases hk : k = []
  · subst hk
    simp [hp]
  · simp [hk, fsGet_fsSet]

theorem ne_nil_of_nodeAt_none (fs : List (List String × Node)) (p : List String)
    (h : nodeAt fs p = none) : p ≠ [] := by
  intro hp
  subst hp
  simp [nodeAt] at h

theorem ne_nil_of_nodeAt_file (fs : List (List String × Node)) (p : List String)
    (c : List Nat) (h : nodeAt fs p = some (.file c)) : p ≠ [] := by
  intro hp
  subst hp
  simp [nodeAt] at h

theorem DirsAdded_refl (fs : List (List String × Node)) : DirsAdded fs fs :=
  fun _ => Or.inl rfl

theorem DirsAdded_trans {a b c : List (List String × Node)} (h1 : DirsAdded a b)
    (h2 : DirsAdded b c) : DirsAdded a c := by
  intro k
  rcases h2 k with h | ⟨hb, hc⟩
  · rw [h]
    exact h1 k
  · rcases h1 k with h | ⟨ha, hb'⟩
    · exact Or.inr ⟨by rw [← h]; exact hb, hc⟩
    · rw [hb] at hb'
      exact absurd hb' (by simp)

theorem Grows_refl (fs : List (List String × Node)) : Grows fs fs :=
  fun _ n h => ⟨n, h, id⟩

theorem Grows_trans {a b c : List (List String × Node)} (h1 : Grows a b) (h2 : Grows b c) :
    Grows a c := by
  intro k n h
  obtain ⟨n1, hn1, hd1⟩ := h1 k n h
  obtain ⟨n2, hn2, hd2⟩ := h2 k n1 hn1
  exact ⟨n2, hn2, fun hd => hd2 (hd1 hd)⟩

theorem DirsAdded_grows {a b : List (List String × Node)} (h : DirsAdded a b) : Grows a b := by
  intro k n hn
  rcases h k with h1 | ⟨h1, _⟩
  · exact ⟨n, by rw [h1]; exact hn, id⟩
  · rw [hn] at h1
    exact absurd h1 (by simp)

theorem DirsAdded_file_iff {a b : List (List String × Node)} (h : DirsAdded a b)
    (k : List String) (c : List Nat) :
    nodeAt b k = some (.file c) ↔ nodeAt a k = some (.file c) := by
  rcases h k with h1 | ⟨h1, h2⟩
  · rw [h1]
  · rw [h1, h2]
    simp

theorem dirsAdded_fsSet_dir (fs : List (List String × Node)) (p : List String)
    (h : nodeAt fs p = none) : DirsAdded fs (fsSet fs p .dir) := by
  intro k
  rw [nodeAt_fsSet _ _ _ _ (ne_nil_of_nodeAt_none fs p h)]
  by_cases hk : p = k
  · subst hk
    exact Or.inr ⟨h, by simp⟩
  · exact Or.inl (by simp [hk])

theorem mkdirFrom_dirsAdded (rest : List String) :
    ∀ (fs fs' : List (List String × Node)) (done : List String),
      mkdirFrom fs done rest = .ok fs' → DirsAdded fs fs' := by
  induction rest with
  | nil =>
    intro fs fs' done h
    unfold mkdirFrom at h
    cases hn : nodeAt fs done with
    | none =>
      simp only [hn] at h
      cases h
      exact dirsAdded_fsSet_dir fs done hn
    | some n =>
      cases n with
      | dir =>
        simp only [hn] at h
        cases h
        exact DirsAdded_refl fs
      | file c => simp [hn] at h
  | cons c rest ih =>
    intro fs fs' done h
    unfold mkdirFrom at h
    cases hn : nodeAt fs done with
    | none =>
      simp only [hn] at h
      exact DirsAdded_trans (dirsAdded_fsSet_dir fs done hn) (ih _ _ _ h)
    | some n =>
      cases n with
      | dir =>
        simp only [hn] at h
        exact ih _ _ _ h
      | file c => simp [hn] at h

theorem lookupFrom_grows {fs fs' : List (List String × Node)} (hg : Grows fs fs')
    (rest : List String) :
    ∀ (done : List String) (n : Node), lookupFrom fs done rest = .ok n →
      ∃ n', lookupFrom fs' done rest = .ok n' ∧ (n = .dir → n' = .dir) := by
  induction rest with
  | nil =>
    intro done n h
    unfold lookupFrom at h
    cases hn : nodeAt fs done with
    | none => simp [hn] at h
    | some m =>
      simp only [hn] at h
      have hmn : m = n := by simpa using h
      subst hmn
      obtain ⟨n', hn', hd⟩ := hg done m hn
      exact ⟨n', by simp [lookupFrom, hn'], hd⟩
  | cons c rest ih =>
    intro done n h
    unfold lookupFrom at h
    cases hn : nodeAt fs done with
    | none => simp [hn] at h
    | some m =>
      cases m with
      | file b => simp [hn] at h
      | dir =>
        simp only [hn] at h
        obtain ⟨n', hn', hd⟩ := hg done .dir hn
        have hdir : nodeAt fs' done = some .dir := by rw [hn', hd rfl]
        obtain ⟨n2, h2, hd2⟩ := ih _ _ h
        exact ⟨n2, by simp [lookupFrom, hdir, h2], hd2⟩

theorem lookupFrom_dirsAdded {fs fs' : List (List String × Node)} (hg : DirsAdded fs fs')
    (rest : List String) :
    ∀ (done : List String) (n : Node), lookupFrom fs done rest = .ok n →
      lookupFrom fs' done rest = .ok n := by
  induction rest with
  | nil =>
    intro done n h
    unfold lookupFrom at h
    cases hn : nodeAt fs done with
    | none => simp [hn] at h
    | some m =>
      simp only [hn] at h
      have hmn : m = n := by simpa using h
      subst hmn
      rcases hg done with h1 | ⟨h1, _⟩
      · simp [lookupFrom, h1, hn]
      · rw [hn] at h1
        exact absurd h1 (by simp)
  | cons c rest ih =>
    intro done n h
    unfold lookupFrom at h
    cases hn : nodeAt fs done with
    | none => simp [hn] at h
    | some m =>
      cases m with
      | file b => simp [hn] at h
      | dir =>
        simp only [hn] at h
        have hdir : nodeAt fs' done = some .dir := by
          rcases hg done with h1 | ⟨h1, _⟩
          · rw [h1, hn]
          · rw [hn] at h1
            exact absurd h1 (by simp)
        simp [lookupFrom, hdir, ih _ _ h]

theorem osMkdirAll_spec (s s' : Sys) (path : String) (e : Option Err)
    (h : osMkdirAll s path = (s', e)) :
    s'.cwd = s.cwd ∧ s'.requests = s.requests ∧ DirsAdded s.files s'.files ∧
      (e ≠ none → s' = s) := by
  unfold osMkdirAll at h
  split_ifs at h with hp
  · cases h
    exact ⟨rfl, rfl, DirsAdded_refl _, fun _ => rfl⟩
  · cases hm : mkdirFrom s.files [] (resolvePath s.cwd path) with
    | error err =>
      rw [hm] at h
      cases h
      exact ⟨rfl, rfl, DirsAdded_refl _, fun _ => rfl⟩
    | ok fs =>
      rw [hm] at h
      cases h
      exact ⟨rfl, rfl, mkdirFrom_dirsAdded _ _ _ _ hm, fun hne => absurd rfl hne⟩

theorem osStat_dirsAdded (s s' : Sys) (hc : s'.cwd = s.cwd) (hg : DirsAdded s.files s'.files)
    (path : String) (n : Node) (h : osStat s path = .ok n) : osStat s' path = .ok n := by
  unfold osStat at h ⊢
  split_ifs at h ⊢ with hp
  rw [hc]
  exact lookupFrom_dirsAdded hg _ _ _ h

theorem osStat_grows (s s' : Sys) (hc : s'.cwd = s.cwd) (hg : Grows s.files s'.files)
    (path : String) (n : Node) (h : osStat s path = .ok n) :
    ∃ n', osStat s' path = .ok n' := by
  unfold osStat at h ⊢
  split_ifs at h ⊢ with hp
  rw [hc]
  obtain ⟨n', hn', _⟩ := lookupFrom_grows hg _ _ _ h
  exact ⟨n', hn'⟩

theorem lookupFrom_target (fs fs2 : List (List String × Node)) (node : Node)
    (rest : List String) :
    ∀ done : List String, rest ≠ [] → lookupFrom fs done rest.dropLast = .ok .dir →
      (∀ k, nodeAt fs2 k = if done ++ rest = k then some node else nodeAt fs k) →
      lookupFrom fs2 done rest = .ok node := by
  induction rest with
  | nil => intro done h; exact absurd rfl h
  | cons c rest ih =>
    intro done _ hl hfs2
    have hdone : nodeAt fs2 done = nodeAt fs done := by
      rw [hfs2 done, if_neg]
      intro heq
      have := congrArg List.length heq
      simp at this
    cases rest with
    | nil =>
      simp only [List.dropLast_single] at hl
      unfold lookupFrom at hl
      cases hn : nodeAt fs done with
      | none => simp [hn] at hl
      | some m =>
        simp only [hn] at hl
        have hm : m = .dir := by simpa using hl
        subst hm
        have hlast : nodeAt fs2 (done ++ [c]) = some node := by rw [hfs2, if_pos rfl]
        simp [lookupFrom, hdone, hn, hlast]
    | cons c' rest =>
      simp only [List.dropLast_cons₂] at hl
      unfold lookupFrom at hl
      cases hn : nodeAt fs done with
      | none => simp [hn] at hl
      | some m =>
        cases m with
        | file b => simp [hn] at hl
        | dir =>
          simp only [hn] at hl
          have := ih (done ++ [c]) (by simp) hl (by
            intro k
            rw [hfs2 k]
            simp)
          rw [lookupFrom, hdone, hn]
          exact this

theorem osCreate_ok (s s' : Sys) (path : String) (h : osCreate s path = .ok s') :
    path ≠ "" ∧ resolvePath s.cwd path ≠ [] ∧
      lookupFrom s.files [] (resolvePath s.cwd path).dropLast = .ok .dir ∧
      nodeAt s.files (resolvePath s.cwd path) ≠ some .dir ∧
      s'.cwd = s.cwd ∧ s'.requests = s.requests ∧
      s'.files = fsSet s.files (resolvePath s.cwd path) (.file []) := by
  unfold osCreate at h
  by_cases hp : path = ""
  · simp [hp] at h
  by_cases hroot : resolvePath s.cwd path = []
  · simp [hp, hroot] at h
  simp only [hp, hroot, if_false] at h
  cases hl : lookupFrom s.files [] (resolvePath s.cwd path).dropLast with
  | error err => simp [hl] at h
  | ok m =>
    cases m with
    | file b => simp [hl] at h
    | dir =>
      simp only [hl] at h
      cases hn : nodeAt s.files (resolvePath s.cwd path) with
      | none =>
        simp only [hn] at h
        have hs : s' = _ := (Except.ok.inj h).symm
        subst hs
        exact ⟨hp, hroot, rfl, by simp, rfl, rfl, rfl⟩
      | some m =>
        cases m with
        | dir => simp [hn] at h
        | file b =>
          simp only [hn] at h
          have hs : s' = _ := (Except.ok.inj h).symm
          subst hs
          exact ⟨hp, hroot, rfl, by simp, rfl, rfl, rfl⟩

theorem osCreate_copyTo (s s' : Sys) (path : String) (bytes : List Nat)
    (h : osCreate s path = .ok s') :
    (copyTo s' path bytes).cwd = s.cwd ∧ (copyTo s' path bytes).requests = s.requests ∧
      Grows s.files (copyTo s' path bytes).files ∧
      osStat (copyTo s' path bytes) path = .ok (.file bytes) := by
  obtain ⟨hp, hroot, hl, hnd, hcwd, hreq, hfiles⟩ := osCreate_ok s s' path h
  have hnode : ∀ k, nodeAt (copyTo s' path bytes).files k =
      if resolvePath s.cwd path = k then some (.file bytes) else nodeAt s.files k := by
    intro k
    simp only [copyTo, hcwd, hfiles]
    rw [nodeAt_fsSet _ _ _ _ hroot, nodeAt_fsSet _ _ _ _ hroot]
    by_cases hk : resolvePath s.cwd path = k <;> simp [hk]
  refine ⟨hcwd, hreq, ?_, ?_⟩
  · intro k n hn
    rw [hnode k]
    by_cases hk : resolvePath s.cwd path = k
    · subst hk
      refine ⟨.file bytes, by simp, ?_⟩
      intro hd
      subst hd
      exact absurd hn hnd
    · exact ⟨n, by simp [hk, hn], id⟩
  · unfold osStat
    rw [if_neg hp]
    have hc2 : (copyTo s' path bytes).cwd = s.cwd := hcwd
    rw [hc2]
    apply lookupFrom_target s.files _ _ _ [] hroot hl
    intro k
    simpa using hnode k

theorem extractEntries_grows (targetDir : String) (final : Option String)
    (entries : List TarEntry) :
    ∀ (s s' : Sys) (e : Option Err), extractEntries s targetDir entries final = (s', e) →
      s'.cwd = s.cwd ∧ s'.requests = s.requests ∧ Grows s.files s'.files := by
  induction entries with
  | nil =>
    intro s s' e h
    cases final <;>
    · simp only [extractEntries] at h
      cases h
      exact ⟨rfl, rfl, Grows_refl _⟩
  | cons hd entries ih =>
    intro s s' e h
    rw [extractEntries] at h
    cases htf : hd.Typeflag with
    | other =>
      simp only [htf] at h
      exact ih _ _ _ h
    | TypeDir =>
      simp only [htf] at h
      cases hm : osMkdirAll s (filepathJoin [targetDir, hd.Name]) with
      | mk s1 e1 =>
        obtain ⟨hc1, hr1, hg1, _⟩ := osMkdirAll_spec _ _ _ _ hm
        rw [hm] at h
        cases e1 with
        | some err =>
          simp only at h
          cases h
          exact ⟨hc1, hr1, DirsAdded_grows hg1⟩
        | none =>
          simp only at h
          obtain ⟨hc2, hr2, hg2⟩ := ih _ _ _ h
          exact ⟨hc2.trans hc1, hr2.trans hr1, Grows_trans (DirsAdded_grows hg1) hg2⟩
    | TypeReg =>
      simp only [htf] at h
      cases hm : osMkdirAll s (filepathDir (filepathJoin [targetDir, hd.Name])) with
      | mk s1 e1 =>
        obtain ⟨hc1, hr1, hg1, _⟩ := osMkdirAll_spec _ _ _ _ hm
        rw [hm] at h
        cases e1 with
        | some err =>
          simp only at h
          cases h
          exact ⟨hc1, hr1, DirsAdded_grows hg1⟩
        | none =>
          simp only at h
          cases hcr : osCreate s1 (filepathJoin [targetDir, hd.Name]) with
          | error err =>
            rw [hcr] at h
            simp only at h
            cases h
            exact ⟨hc1, hr1, DirsAdded_grows hg1⟩
          | ok s2 =>
            rw [hcr] at h
            simp only at h
            obtain ⟨hc2, hr2, hg2, _⟩ :=
              osCreate_copyTo s1 s2 (filepathJoin [targetDir, hd.Name]) hd.data hcr
            cases hde : hd.dataErr with
            | some msg =>
              rw [hde] at h
              simp only at h
              cases h
              exact ⟨hc2.trans hc1, hr2.trans hr1, Grows_trans (DirsAdded_grows hg1) hg2⟩
            | none =>
              rw [hde] at h
              simp only at h
              obtain ⟨hc3, hr3, hg3⟩ := ih _ _ _ h
              exact ⟨hc3.trans (hc2.trans hc1), hr3.trans (hr2.trans hr1),
                Grows_trans (Grows_trans (DirsAdded_grows hg1) hg2) hg3⟩

theorem extractTarball_grows (env : Env) (s s' : Sys) (tarball targetDir : String)
    (e : Option Err) (h : extractTarball env s tarball targetDir = (s', e)) :
    s'.cwd = s.cwd ∧ s'.requests = s.requests ∧ Grows s.files s'.files ∧
      (e = none → ∃ n, osStat s tarball = .ok n) := by
  unfold extractTarball at h
  cases hst : osStat s tarball with
  | error err =>
    rw [hst] at h
    cases h
    exact ⟨rfl, rfl, Grows_refl _, fun hn => by simp at hn⟩
  | ok n =>
    rw [hst] at h
    cases n with
    | dir =>
      cases h
      exact ⟨rfl, rfl, Grows_refl _, fun hn => by simp at hn⟩
    | file bytes =>
      simp only at h
      cases hd : env.decode bytes with
      | invalid msg =>
        rw [hd] at h
        cases h
        exact ⟨rfl, rfl, Grows_refl _, fun hn => by simp at hn⟩
      | stream entries final =>
        rw [hd] at h
        simp only at h
        cases hm : osMkdirAll s targetDir with
        | mk s1 e1 =>
          obtain ⟨hc1, hr1, hg1, _⟩ := osMkdirAll_spec _ _ _ _ hm
          rw [hm] at h
          cases e1 with
          | some err =>
            cases h
            exact ⟨hc1, hr1, DirsAdded_grows hg1, fun hn => by simp at hn⟩
          | none =>
            simp only at h
            obtain ⟨hc2, hr2, hg2⟩ := extractEntries_grows _ _ _ _ _ _ h
            exact ⟨hc2.trans hc1, hr2.trans hr1, Grows_trans (DirsAdded_grows hg1) hg2, fun _ => ⟨_, rfl⟩⟩

theorem isNotExist_ok (n : Node) : isNotExist (.ok n) = false := rfl

theorem installFromRegistry_hit (env : Env) (i : Installer) (s s1 : Sys) (name version : String)
    (n : Node) (hm : osMkdirAll s i.CachePath = (s1, none))
    (hhit : osStat s1 (tarballPath env i name version) = .ok n) :
    (installFromRegistry env i s name version).1 =
        (extractTarball env s1 (tarballPath env i name version)
          (filepathJoin [i.ModulesPath, name])).1 ∧
      (installFromRegistry env i s name version).2 =
        (extractTarball env s1 (tarballPath env i name version)
          (filepathJoin [i.ModulesPath, name])).2.map (Err.wrap "failed to extract package") := by
  unfold installFromRegistry
  rw [hm]
  simp only [hhit, isNotExist_ok, Bool.false_eq_true, if_false]
  cases hx : extractTarball env s1 (tarballPath env i name version)
      (filepathJoin [i.ModulesPath, name]) with
  | mk s2 e2 =>
    cases e2 <;> exact ⟨rfl, rfl⟩

theorem installFromRegistry_hit_requests (env : Env) (i : Installer) (s : Sys)
    (name version : String) (n : Node)
    (hhit : osStat s (tarballPath env i name version) = .ok n) :
    (installFromRegistry env i s name version).1.requests = s.requests := by
  cases hm : osMkdirAll s i.CachePath with
  | mk s1 e1 =>
    obtain ⟨hc1, hr1, hg1, _⟩ := osMkdirAll_spec _ _ _ _ hm
    cases e1 with
    | some err =>
      unfold installFromRegistry
      rw [hm]
      exact hr1
    | none =>
      have hhit1 := osStat_dirsAdded s s1 hc1 hg1 _ _ hhit
      rw [(installFromRegistry_hit env i s s1 name version n hm hhit1).1]
      cases hx : extractTarball env s1 (tarballPath env i name version)
          (filepathJoin [i.ModulesPath, name]) with
      | mk s2 e2 =>
        obtain ⟨_, hr2, _, _⟩ := extractTarball_grows _ _ _ _ _ _ hx
        exact hr2.trans hr1

theorem tarballPath_eq (env : Env) (i : Installer) (name version : String) :
    tarballPath env i name version =
      filepathJoin [i.CachePath, name ++ "-" ++ version ++ ".tgz"] := by
  unfold tarballPath
  rw [Sprintf_tgz]

theorem installFromRegistry_ok_cached (env : Env) (i : Installer) (s s1 : Sys)
    (name version : String) (h : installFromRegistry env i s name version = (s1, none)) :
    ∃ n, osStat s1 (tarballPath env i name version) = .ok n := by
  unfold installFromRegistry at h
  cases hm : osMkdirAll s i.CachePath with
  | mk sa ea =>
    rw [hm] at h
    cases ea with
    | some err => simp at h
    | none =>
      simp only at h
      generalize (if isNotExist (osStat sa (tarballPath env i name version)) = true then
        downloadFile env sa (tarballURL env name version) (tarballPath env i name version)
        else (sa, none)) = dl at h
      obtain ⟨sb, eb⟩ := dl
      cases eb with
      | some err => simp at h
      | none =>
        simp only at h
        cases hx : extractTarball env sb (tarballPath env i name version)
            (filepathJoin [i.ModulesPath, name]) with
        | mk sc ec =>
          rw [hx] at h
          cases ec with
          | some err => simp at h
          | none =>
            have hs : sc = s1 := by simpa using h
            subst hs
            obtain ⟨hc, _, hg, hex⟩ := extractTarball_grows _ _ _ _ _ _ hx
            obtain ⟨n, hn⟩ := hex rfl
            exact osStat_grows sb sc hc hg _ _ hn

/-! ## The claims on the installer -/

/-- C15: for the package name `pkg%s` and version `1.0.0` the URL built by
`installFromRegistry` ends in `pkg1.0.0-%!s(MISSING).tgz`, which is not the
URL of the convention: the name is pasted into the format of `fmt.Sprintf`, so
its `%s` takes the version as operand and the last `%s` has none.  For a name
without `%` the URL is the one of the convention. -/
theorem tarballURL_percent_name (env : Env) :
    tarballURL env "pkg%s" "1.0.0" =
        "https://registry.droy-lang.org/pkg%s/-/pkg1.0.0-%!s(MISSING).tgz" ∧
      tarballURL env "pkg%s" "1.0.0" ≠
        "https://registry.droy-lang.org/" ++ "pkg%s" ++ "/-/" ++ "pkg%s" ++ "-" ++ "1.0.0"
          ++ ".tgz" ∧
      ∀ name version : String, (∀ c ∈ name.data, c ≠ '%') →
        tarballURL env name version =
          "https://registry.droy-lang.org/" ++ name ++ "/-/" ++ name ++ "-" ++ version
            ++ ".tgz" := by
  have h : tarballURL env "pkg%s" "1.0.0" =
      "https://registry.droy-lang.org/pkg%s/-/pkg1.0.0-%!s(MISSING).tgz" := by
    unfold tarballURL Sprintf
    have hs : sprintfScan false
        ("https://registry.droy-lang.org/%s/-/" ++ "pkg%s" ++ "-%s.tgz").data
        ["pkg%s", "1.0.0"] =
        some "https://registry.droy-lang.org/pkg%s/-/pkg1.0.0-%!s(MISSING).tgz".data := by
      decide
    rw [hs]
  refine ⟨h, ?_, fun name version hn => tarballURL_of_no_percent env name version hn⟩
  rw [h]
  decide

/-- Counterexample to C16: the cache holds the archive of `p` 1.0.0 with one
byte changed, so not the bytes the registry serves; `installFromRegistry`
makes no request, returns no error, and extracts the changed content into the
module directory. -/
theorem installFromRegistry_altered_cache_installs :
    tarballAltered ≠ tarballServed ∧
      envDemo.http [] (tarballURL envDemo "p" "1.0.0") =
        .response 200 "200 OK" tarballServed none ∧
      osStat sysAltered (tarballPath envDemo instDemo "p" "1.0.0") =
        .ok (.file tarballAltered) ∧
      (installFromRegistry envDemo instDemo sysAltered "p" "1.0.0").2 = none ∧
      (installFromRegistry envDemo instDemo sysAltered "p" "1.0.0").1.requests = [] ∧
      osStat (installFromRegistry envDemo instDemo sysAltered "p" "1.0.0").1
        "droy_modules/p/index.droy" = .ok (.file [101]) := by
  decide

/-- C16, amended: when the file in the cache for `(name, version)` is not a
gzip stream, `installFromRegistry` returns an error, makes no request, and
leaves the file system as it was up to directories added: nothing is
extracted.  No hash of the cached file takes part. -/
theorem installFromRegistry_undecodable_cache (env : Env) (i : Installer) (s : Sys)
    (name version : String) (bytes : List Nat) (message : String)
    (hfile : osStat s (filepathJoin [i.CachePath, name ++ "-" ++ version ++ ".tgz"]) =
      .ok (.file bytes))
    (hbad : env.decode bytes = .invalid message) :
    (installFromRegistry env i s name version).2 ≠ none ∧
      (installFromRegistry env i s name version).1.requests = s.requests ∧
      DirsAdded s.files (installFromRegistry env i s name version).1.files := by
  rw [← tarballPath_eq env] at hfile
  cases hm : osMkdirAll s i.CachePath with
  | mk s1 e1 =>
    obtain ⟨hc1, hr1, hg1, _⟩ := osMkdirAll_spec _ _ _ _ hm
    cases e1 with
    | some err =>
      unfold installFromRegistry
      rw [hm]
      exact ⟨by simp, hr1, hg1⟩
    | none =>
      have hhit1 := osStat_dirsAdded s s1 hc1 hg1 _ _ hfile
      obtain ⟨h1, h2⟩ := installFromRegistry_hit env i s s1 name version _ hm hhit1
      have hx : extractTarball env s1 (tarballPath env i name version)
          (filepathJoin [i.ModulesPath, name]) = (s1, some (.text message)) := by
        unfold extractTarball
        simp only [hhit1, hbad]
      rw [h1, h2, hx]
      exact ⟨by simp, hr1, hg1⟩

/-- Witness of C16, amended: the cache of `q` 1.0.0 holds three bytes that
are no gzip stream. -/
theorem installFromRegistry_undecodable_cache_witness :
    (installFromRegistry envDemo instDemo sysPartial "q" "1.0.0").2 ≠ none ∧
      (installFromRegistry envDemo instDemo sysPartial "q" "1.0.0").1.requests = [] ∧
      DirsAdded sysPartial.files
        (installFromRegistry envDemo instDemo sysPartial "q" "1.0.0").1.files :=
  installFromRegistry_undecodable_cache envDemo instDemo sysPartial "q" "1.0.0"
    [31, 139, 8] "gzip: invalid header" (by decide) (by decide)

/-- Counterexample to C17: the cache has no file for `q` 1.0.0; the body of
the download fails after three bytes, `downloadFile` returns that error, and
the file now exists at the path with the three bytes.  A later
`installFromRegistry` finds it, makes no request and fails on extracting it. -/
theorem downloadFile_partial_file_remains :
    osStat sysEmpty "/home/.droy/cache/q-1.0.0.tgz" = .error .ENOENT ∧
      (downloadFile envDemo sysEmpty (tarballURL envDemo "q" "1.0.0")
        "/home/.droy/cache/q-1.0.0.tgz").2 = some (.text "unexpected EOF") ∧
      osStat (downloadFile envDemo sysEmpty (tarballURL envDemo "q" "1.0.0")
        "/home/.droy/cache/q-1.0.0.tgz").1 "/home/.droy/cache/q-1.0.0.tgz" =
        .ok (.file [31, 139, 8]) ∧
      tarballPath envDemo instDemo "q" "1.0.0" = "/home/.droy/cache/q-1.0.0.tgz" ∧
      installFromRegistry envDemo instDemo
        (downloadFile envDemo sysEmpty (tarballURL envDemo "q" "1.0.0")
          "/home/.droy/cache/q-1.0.0.tgz").1 "q" "1.0.0" =
        ((downloadFile envDemo sysEmpty (tarballURL envDemo "q" "1.0.0")
          "/home/.droy/cache/q-1.0.0.tgz").1,
          some (.wrap "failed to extract package" (.text "gzip: invalid header"))) := by
  decide

/-- C18: when a file exists at the cache path of `(name, version)`,
`installFromRegistry` makes no request, and once the cache directory is
ensured its result is that of `extractTarball` on the cached file, the error
wrapped; and after an `installFromRegistry` that returned no error, a second
one for the same name and version makes no request. -/
theorem installFromRegistry_cache_hit (env : Env) (i : Installer) (s : Sys)
    (name version : String) :
    (∀ bytes, osStat s (filepathJoin [i.CachePath, name ++ "-" ++ version ++ ".tgz"]) =
        .ok (.file bytes) →
      (installFromRegistry env i s name version).1.requests = s.requests ∧
        ∀ s1, osMkdirAll s i.CachePath = (s1, none) →
          (installFromRegistry env i s name version).1 =
            (extractTarball env s1
              (filepathJoin [i.CachePath, name ++ "-" ++ version ++ ".tgz"])
              (filepathJoin [i.ModulesPath, name])).1 ∧
          (installFromRegistry env i s name version).2 =
            (extractTarball env s1
              (filepathJoin [i.CachePath, name ++ "-" ++ version ++ ".tgz"])
              (filepathJoin [i.ModulesPath, name])).2.map
              (Err.wrap "failed to extract package")) ∧
      ∀ s1, installFromRegistry env i s name version = (s1, none) →
        (installFromRegistry env i s1 name version).1.requests = s1.requests := by
  constructor
  · intro bytes hfile
    rw [← tarballPath_eq env] at hfile ⊢
    refine ⟨installFromRegistry_hit_requests env i s name version _ hfile, ?_⟩
    intro s1 hm
    obtain ⟨hc1, _, hg1, _⟩ := osMkdirAll_spec _ _ _ _ hm
    exact installFromRegistry_hit env i s s1 name version _ hm
      (osStat_dirsAdded s s1 hc1 hg1 _ _ hfile)
  · intro s1 h
    obtain ⟨n, hn⟩ := installFromRegistry_ok_cached env i s s1 name version h
    exact installFromRegistry_hit_requests env i s1 name version n hn

/-- Witness of C18: the install of `p` 1.0.0 from a cache that holds its
archive makes no request; the install into an empty cache makes one request
and returns no error, and the install repeated after it makes no further
request. -/
theorem installFromRegistry_cache_hit_witness :
    (installFromRegistry envDemo instDemo sysAltered "p" "1.0.0").1.requests =
        sysAltered.requests ∧
      installFromRegistry envDemo instDemo sysEmpty "p" "1.0.0" =
        ((installFromRegistry envDemo instDemo sysEmpty "p" "1.0.0").1, none) ∧
      (installFromRegistry envDemo instDemo sysEmpty "p" "1.0.0").1.requests =
        ["https://registry.droy-lang.org/p/-/p-1.0.0.tgz"] ∧
      (installFromRegistry envDemo instDemo
        (installFromRegistry envDemo instDemo sysEmpty "p" "1.0.0").1 "p" "1.0.0").1.requests =
        (installFromRegistry envDemo instDemo sysEmpty "p" "1.0.0").1.requests :=
  ⟨((installFromRegistry_cache_hit envDemo instDemo sysAltered "p" "1.0.0").1
      tarballAltered (by decide)).1,
    by decide, by decide,
    (installFromRegistry_cache_hit envDemo instDemo sysEmpty "p" "1.0.0").2 _ (by decide)⟩

theorem downloadFile_grows (env : Env) (s : Sys) (url path : String) :
    (downloadFile env s url path).1.cwd = s.cwd ∧
      Grows s.files (downloadFile env s url path).1.files := by
  unfold downloadFile
  cases hr : env.http s.requests url with
  | failed message => exact ⟨by simp, Grows_refl _⟩
  | response code status body bodyErr =>
    simp only
    by_cases hcode : code = 200
    · subst hcode
      simp only [ne_eq, not_true_eq_false, if_false]
      cases hc : osCreate { s with requests := s.requests ++ [url] } path with
      | error e => exact ⟨by simp, Grows_refl _⟩
      | ok s3 =>
        obtain ⟨hcwd, _, hg, _⟩ := osCreate_copyTo _ s3 path body hc
        exact ⟨hcwd, hg⟩
    · simp only [ne_eq, hcode, not_false_eq_true, if_true]
      exact ⟨by simp, Grows_refl _⟩

theorem installFromRegistry_grows (env : Env) (i : Installer) (s : Sys)
    (name version : String) :
    Grows s.files (installFromRegistry env i s name version).1.files := by
  unfold installFromRegistry
  cases hm : osMkdirAll s i.CachePath with
  | mk sa ea =>
    obtain ⟨hca, _, hga, _⟩ := osMkdirAll_spec _ _ _ _ hm
    cases ea with
    | some err => exact DirsAdded_grows hga
    | none =>
      simp only
      have hdl : ∀ dl : Sys × Option Err,
          dl = (if isNotExist (osStat sa (tarballPath env i name version)) = true then
            downloadFile env sa (tarballURL env name version) (tarballPath env i name version)
            else (sa, none)) → Grows sa.files dl.1.files := by
        intro dl hdl
        subst hdl
        split_ifs
        · exact (downloadFile_grows env sa _ _).2
        · exact Grows_refl _
      generalize (if isNotExist (osStat sa (tarballPath env i name version)) = true then
        downloadFile env sa (tarballURL env name version) (tarballPath env i name version)
        else (sa, none)) = dl at hdl
      have hgb := hdl dl rfl
      obtain ⟨sb, eb⟩ := dl
      cases eb with
      | some err => exact Grows_trans (DirsAdded_grows hga) hgb
      | none =>
        simp only
        cases hx : extractTarball env sb (tarballPath env i name version)
            (filepathJoin [i.ModulesPath, name]) with
        | mk sc ec =>
          obtain ⟨_, _, hgc, _⟩ := extractTarball_grows _ _ _ _ _ _ hx
          cases ec <;> exact Grows_trans (Grows_trans (DirsAdded_grows hga) hgb) hgc

theorem installLoop_recordCalls {σ : Type} (install : σ → String → String → σ × Option Err)
    (resolved : List (String × String)) :
    ∀ (s : σ) (log : List (String × String × Bool)) (n : Nat),
      (installLoop (recordCalls install) (s, log) n resolved).1.1 =
          (installLoop install s n resolved).1 ∧
        (installLoop (recordCalls install) (s, log) n resolved).2 =
          (installLoop install s n resolved).2 ∧
        (installLoop (recordCalls install) (s, log) n resolved).1.2.map
            (fun c => (c.1, c.2.1)) = log.map (fun c => (c.1, c.2.1)) ++ resolved ∧
        (installLoop (recordCalls install) (s, log) n resolved).2 +
            (log.filter (fun c => c.2.2)).length =
          n + ((installLoop (recordCalls install) (s, log) n resolved).1.2.filter
            (fun c => c.2.2)).length := by
  induction resolved with
  | nil => intro s log n; simp [installLoop, Nat.add_comm]
  | cons e resolved ih =>
    intro s log n
    obtain ⟨name, version⟩ := e
    cases hi : install s name version with
    | mk s1 err =>
      cases err with
      | some er =>
        have hrec : recordCalls install (s, log) name version =
            ((s1, log ++ [(name, version, false)]), some er) := by
          simp [recordCalls, hi]
        simp only [installLoop, hrec, hi]
        obtain ⟨h1, h2, h3, h4⟩ := ih s1 (log ++ [(name, version, false)]) n
        refine ⟨h1, h2, ?_, ?_⟩
        · rw [h3]
          simp
        · rw [← h4]
          simp
      | none =>
        have hrec : recordCalls install (s, log) name version =
            ((s1, log ++ [(name, version, true)]), none) := by
          simp [recordCalls, hi]
        simp only [installLoop, hrec, hi]
        obtain ⟨h1, h2, h3, h4⟩ := ih s1 (log ++ [(name, version, true)]) (n + 1)
        refine ⟨h1, h2, ?_, ?_⟩
        · rw [h3]
          simp
        · simp only [List.filter_append, List.length_append] at h4
          simp only [List.filter_cons, List.filter_nil, if_true, List.length_singleton] at h4
          omega

/-- C19: the module directory of `p` holds `old.droy` from an earlier
installation; the archive of `p` 1.0.0 has the single file `index.droy`.
`installFromRegistry` returns no error and the module directory then holds
`index.droy` and still `old.droy`: the archive is extracted on top of the
directory.  In general no path that existed before the call is missing after
it. -/
theorem installFromRegistry_keeps_old_entries :
    envDemo.decode tarballServed = .stream [⟨"index.droy", .TypeReg, [100], none⟩] none ∧
      osStat sysOld "droy_modules/p/old.droy" = .ok (.file [7]) ∧
      (installFromRegistry envDemo instDemo sysOld "p" "1.0.0").2 = none ∧
      osStat (installFromRegistry envDemo instDemo sysOld "p" "1.0.0").1
        "/home/.droy/cache/p-1.0.0.tgz" = .ok (.file tarballServed) ∧
      osStat (installFromRegistry envDemo instDemo sysOld "p" "1.0.0").1
        "droy_modules/p/index.droy" = .ok (.file [100]) ∧
      osStat (installFromRegistry envDemo instDemo sysOld "p" "1.0.0").1
        "droy_modules/p/old.droy" = .ok (.file [7]) ∧
      ∀ (env : Env) (i : Installer) (s : Sys) (name version : String),
        Grows s.files (installFromRegistry env i s name version).1.files := by
  refine ⟨by decide, by decide, by decide, by decide, by decide, by decide, ?_⟩
  exact installFromRegistry_grows

/-- C20: for every `Install` behaviour, state and resolved set, the batch
calls `Install` once for each resolved package, in the order visited, whether
or not earlier calls failed; `total` is the size of the resolved set,
`installed` is the number of calls that returned no error, and `installed` is
at most `total`.  Recording the calls changes neither the final state nor the
two numbers. -/
theorem installAllDependencies_counts {σ : Type}
    (install : σ → String → String → σ × Option Err) (s : σ)
    (resolved : List (String × String)) :
    (installAllDependencies (recordCalls install) (s, []) resolved).1.2.map
        (fun c => (c.1, c.2.1)) = resolved ∧
      (installAllDependencies (recordCalls install) (s, []) resolved).2.2 = resolved.length ∧
      (installAllDependencies (recordCalls install) (s, []) resolved).2.1 =
        ((installAllDependencies (recordCalls install) (s, []) resolved).1.2.filter
          (fun c => c.2.2)).length ∧
      (installAllDependencies (recordCalls install) (s, []) resolved).2.1 ≤
        (installAllDependencies (recordCalls install) (s, []) resolved).2.2 ∧
      installAllDependencies install s resolved =
        ((installAllDependencies (recordCalls install) (s, []) resolved).1.1,
          (installAllDependencies (recordCalls install) (s, []) resolved).2) := by
  obtain ⟨h1, h2, h3, h4⟩ := installLoop_recordCalls install resolved s [] 0
  simp only [List.map_nil, List.nil_append, List.filter_nil, List.length_nil, Nat.add_zero,
    Nat.zero_add] at h3 h4
  have hlen : ((installLoop (recordCalls install) (s, []) 0 resolved).1.2.filter
      (fun c => c.2.2)).length ≤ resolved.length := by
    calc _ ≤ (installLoop (recordCalls install) (s, []) 0 resolved).1.2.length :=
          List.length_filter_le _ _
      _ = ((installLoop (recordCalls install) (s, []) 0 resolved).1.2.map
            (fun c => (c.1, c.2.1))).length := by rw [List.length_map]
      _ = resolved.length := by rw [h3]
  unfold installAllDependencies
  refine ⟨h3, rfl, h4, ?_, ?_⟩
  · show (installLoop (recordCalls install) (s, []) 0 resolved).2 ≤ resolved.length
    rw [h4]
    exact hlen
  · show (_, _, _) = (_, _, _)
    rw [← h1, ← h2]

/-! ## Lemmas for the last claims -/

theorem lastIndexFrom_not_mem (c : Char) (l : List Char) :
    ∀ (pos : Nat) (found : Int), c ∉ l → lastIndexFrom c l pos found = found := by
  induction l with
  | nil => intro pos found _; rfl
  | cons x l ih =>
    intro pos found h
    have hx : x ≠ c := fun e => h (e ▸ List.mem_cons_self _ _)
    have hl : c ∉ l := fun e => h (List.mem_cons_of_mem _ e)
    simp only [lastIndexFrom, if_neg hx]
    exact ih _ _ hl

theorem lastIndexFrom_append (c : Char) (a b : List Char) (hb : c ∉ b) :
    ∀ (pos : Nat) (found : Int),
      lastIndexFrom c (a ++ c :: b) pos found = ((pos + a.length : Nat) : Int) := by
  induction a with
  | nil =>
    intro pos found
    simp only [List.nil_append, lastIndexFrom, if_true, List.length_nil, Nat.add_zero]
    exact lastIndexFrom_not_mem c b _ _ hb
  | cons x a ih =>
    intro pos found
    simp only [List.cons_append, lastIndexFrom, List.length_cons, List.append_eq]
    rw [ih]
    congr 1
    omega

theorem mapGet_isSome_iff {β : Type} (m : List (String × β)) (k : String) :
    (mapGet m k).isSome = true ↔ k ∈ m.map Prod.fst := by
  induction m with
  | nil => simp [mapGet]
  | cons e m ih =>
    obtain ⟨k0, v0⟩ := e
    by_cases hk : k0 = k
    · simp [mapGet, hk]
    · have hk' : ¬ k = k0 := fun h => hk h.symm
      simp [mapGet, hk, hk', ih]

theorem flattenChildren_leaves (deps : List (String × String)) :
    ∀ result : List (String × String),
      (∀ e ∈ deps, mapGet result e.1 = none) → (deps.map Prod.fst).Nodup →
      flattenChildren (deps.map (fun e => (e.1, DependencyNode.mk e.1 e.2 false []))) result =
        result ++ deps.filter (fun e => decide (e.1 ≠ "root")) := by
  induction deps with
  | nil => intro result _ _; simp [flattenChildren]
  | cons e deps ih =>
    intro result hfresh hnd
    obtain ⟨name, version⟩ := e
    simp only [List.map_cons, List.nodup_cons] at hnd
    have hname : mapGet result name = none := hfresh (name, version) (List.mem_cons_self _ _)
    simp only [List.map_cons, flattenChildren, DependencyNode.flatten]
    by_cases hroot : name = "root"
    · subst hroot
      simp only [ne_eq, not_true_eq_false, if_false]
      rw [ih result (fun e he => hfresh e (List.mem_cons_of_mem _ he)) hnd.2]
      simp
    · simp only [ne_eq, hroot, not_false_eq_true, if_true]
      rw [mapSet_of_mapGet_none _ _ _ hname, ih _ _ hnd.2]
      · simp [hroot]
      · intro e he
        have hne : name ≠ e.1 := by
          intro heq
          exact hnd.1 (heq ▸ List.mem_map_of_mem Prod.fst he)
        rw [mapGet_append_single _ _ _ _ hne]
        exact hfresh e (List.mem_cons_of_mem _ he)

theorem resolveTreeLoop_fresh (deps : List (String × String)) :
    ∀ children : List (String × DependencyNode),
      (∀ e ∈ deps, mapGet children e.1 = none) → (deps.map Prod.fst).Nodup →
      resolveTreeLoop children deps =
        children ++ deps.map (fun e => (e.1, DependencyNode.mk e.1 e.2 false [])) := by
  induction deps with
  | nil => intro children _ _; simp [resolveTreeLoop]
  | cons e deps ih =>
    intro children hfresh hnd
    obtain ⟨name, version⟩ := e
    simp only [List.map_cons, List.nodup_cons] at hnd
    have hname : mapGet children name = none :=
      hfresh (name, version) (List.mem_cons_self _ _)
    simp only [resolveTreeLoop, List.map_cons]
    rw [mapSet_of_mapGet_none _ _ _ hname, ih _ _ hnd.2]
    · simp
    · intro e he
      have hne : name ≠ e.1 := by
        intro heq
        exact hnd.1 (heq ▸ List.mem_map_of_mem Prod.fst he)
      rw [mapGet_append_single _ _ _ _ hne]
      exact hfresh e (List.mem_cons_of_mem _ he)

/-! ## The last claims: registry, resolver and package specifications -/

/-- Counterexample to C23: every request fails, for the registry and for the
release of `github.com/x/y`, and `GetLatestVersion` returns the version
`latest` and no error. -/
theorem GetLatestVersion_failure_gives_latest :
    remoteDown.package "github.com/x/y" = .error "failed to fetch package" ∧
      remoteDown.release "x" "y" = none ∧
      GetLatestVersion remoteDown "github.com/x/y" = .ok "latest" := by
  decide

/-- C23, amended: when the registry lookup of `name` fails with `err`,
`GetLatestVersion` returns `err` for a name that does not start with
`github.com/`, the error `invalid GitHub repository` for a name that does and
has fewer than three parts, and the version `latest` with no error for a name
that does, has three parts or more, and whose release lookup fails. -/
theorem GetLatestVersion_failure (w : Remote) (name err : String)
    (hreg : w.package name = .error err) :
    (HasPrefix name "github.com/" = false → GetLatestVersion w name = .error err) ∧
      (HasPrefix name "github.com/" = true → (Split name '/').length < 3 →
        GetLatestVersion w name = .error "invalid GitHub repository") ∧
      (HasPrefix name "github.com/" = true → 3 ≤ (Split name '/').length →
        w.release ((Split name '/').getD 1 "") ((Split name '/').getD 2 "") = none →
        GetLatestVersion w name = .ok "latest") := by
  refine ⟨?_, ?_, ?_⟩
  · intro hp
    simp [GetLatestVersion, hreg, hp]
  · intro hp hlen
    simp [GetLatestVersion, hreg, hp, getLatestGitHubVersion, hlen]
  · intro hp hlen hrel
    have hlen' : ¬ (Split name '/').length < 3 := by omega
    unfold GetLatestVersion getLatestGitHubVersion
    simp only [hreg, hp, hlen', if_true, if_false, hrel]

/-- Witness of C23, amended: the three cases against an unreachable
registry. -/
theorem GetLatestVersion_failure_witness :
    GetLatestVersion remoteDown "a" = .error "failed to fetch package" ∧
      GetLatestVersion remoteDown "github.com/x" = .error "invalid GitHub repository" ∧
      GetLatestVersion remoteDown "github.com/x/y" = .ok "latest" :=
  ⟨(GetLatestVersion_failure remoteDown "a" "failed to fetch package" (by decide)).1
      (by decide),
    (GetLatestVersion_failure remoteDown "github.com/x" "failed to fetch package"
      (by decide)).2.1 (by decide) (by decide),
    (GetLatestVersion_failure remoteDown "github.com/x/y" "failed to fetch package"
      (by decide)).2.2 (by decide) (by decide) (by decide)⟩

/-- C24: for a non-empty name `n` and a version `v`, both without `@`,
`parsePackageSpec(n + "@" + v)` is the aliased name with `v`, and
`parsePackageSpec(n)` is the aliased name with `latest`; the aliased name is
the entry of `n` in `packageAliases`, or `n` when it has none. -/
theorem parsePackageSpec_form (n v : String) (hn : n ≠ "") (hna : '@' ∉ n.data)
    (hva : '@' ∉ v.data) :
    parsePackageSpec (n ++ "@" ++ v) = ((mapGet packageAliases n).getD n, v) ∧
      parsePackageSpec n = ((mapGet packageAliases n).getD n, "latest") := by
  have hdata : (n ++ "@" ++ v).data = n.data ++ '@' :: v.data := by
    simp [String.data_append]
  have hlen : 0 < n.data.length := by
    cases hd : n.data with
    | nil => exact absurd (String.ext hd) hn
    | cons c l => simp
  constructor
  · have hidx : LastIndex (n ++ "@" ++ v) '@' = (n.data.length : Int) := by
      unfold LastIndex
      rw [hdata, lastIndexFrom_append _ _ _ hva]
      simp
    have hpos : (n.data.length : Int) > 0 := by exact_mod_cast hlen
    have htake : List.take n.data.length (n.data ++ '@' :: v.data) = n.data := by simp
    have hdrop : List.drop (n.data.length + 1) (n.data ++ '@' :: v.data) = v.data := by
      rw [show n.data ++ '@' :: v.data = (n.data ++ ['@']) ++ v.data by simp]
      rw [show n.data.length + 1 = (n.data ++ ['@']).length by simp]
      exact List.drop_left _ _
    unfold parsePackageSpec
    simp only [hidx, hpos, if_true, Int.toNat_ofNat, hdata, htake, hdrop]
    cases mapGet packageAliases n <;> rfl
  · have hidx : LastIndex n '@' = -1 := by
      unfold LastIndex
      exact lastIndexFrom_not_mem _ _ _ _ hna
    have hneg : ¬ ((-1 : Int) > 0) := by decide
    unfold parsePackageSpec
    simp only [hidx, hneg, if_false]
    cases mapGet packageAliases n <;> rfl

/-- Witness of C24: `json@2.0.0` gives `droy-json` at `2.0.0`, and `json`
alone gives `droy-json` at `latest`; a name without alias is kept. -/
theorem parsePackageSpec_form_witness :
    parsePackageSpec ("json" ++ "@" ++ "2.0.0") =
        ((mapGet packageAliases "json").getD "json", "2.0.0") ∧
      parsePackageSpec "json" = ((mapGet packageAliases "json").getD "json", "latest") ∧
      parsePackageSpec "json@2.0.0" = ("droy-json", "2.0.0") ∧
      parsePackageSpec "mypackage@1.0.0" = ("mypackage", "1.0.0") :=
  ⟨(parsePackageSpec_form "json" "2.0.0" (by decide) (by decide) (by decide)).1,
    (parsePackageSpec_form "json" "2.0.0" (by decide) (by decide) (by decide)).2,
    by decide, by decide⟩

/-- C26: for every registry and every dependency map, `Resolve` returns no
error and a map with exactly the names of `deps` as keys; the loop returns no
error and leaves the conflict table empty. -/
theorem Resolve_keys (w : Remote) (deps : List (String × String))
    (hnd : (deps.map Prod.fst).Nodup) :
    ∃ resolved, Resolve w deps = .ok resolved ∧
      resolved.map Prod.fst = deps.map Prod.fst ∧
      (∀ k, (mapGet resolved k).isSome = true ↔ k ∈ deps.map Prod.fst) ∧
      (resolveLoop w ⟨[], []⟩ deps).1.conflicts = [] ∧
      (resolveLoop w ⟨[], []⟩ deps).2 = none := by
  have hkeys : (deps.map (fun e => (e.1, storedVersion w e.1 e.2))).map Prod.fst =
      deps.map Prod.fst := by
    simp [List.map_map, Function.comp_def]
  refine ⟨_, Resolve_eq_map w deps hnd, hkeys, ?_, ?_, ?_⟩
  · intro k
    rw [mapGet_isSome_iff, hkeys]
  · rw [resolveLoop_fresh w deps ⟨[], []⟩ (fun _ _ => rfl) hnd]
  · rw [resolveLoop_fresh w deps ⟨[], []⟩ (fun _ _ => rfl) hnd]

/-- Witness of C26: the map `{a: ^1.0.0, github.com/x/y: 2.0.0, c: ""}`
against the registry of the end-to-end scenario, where only `a` is known. -/
theorem Resolve_keys_witness :
    ∃ resolved,
      Resolve remoteScenario [("a", "^1.0.0"), ("github.com/x/y", "2.0.0"), ("c", "")] =
        .ok resolved ∧
      resolved.map Prod.fst = ["a", "github.com/x/y", "c"] ∧
      (resolveLoop remoteScenario ⟨[], []⟩
        [("a", "^1.0.0"), ("github.com/x/y", "2.0.0"), ("c", "")]).1.conflicts = [] :=
  have h := Resolve_keys remoteScenario
    [("a", "^1.0.0"), ("github.com/x/y", "2.0.0"), ("c", "")] (by decide)
  ⟨h.choose, h.choose_spec.1, h.choose_spec.2.1, h.choose_spec.2.2.2.1⟩

/-- C30: for the map `{root: 2.0.0}` `ResolveTree` returns a tree and no
error, and `Flatten` of that tree is the empty map; for `{a: 1.0.0, root:
2.0.0}` it is `{a: 1.0.0}`.  The entry named `root` is lost because `flatten`
skips every node of that name, not only the root of the tree.  In general the
flattened tree is the map without its entry `root`. -/
theorem Flatten_drops_root :
    (ResolveTree [("root", "2.0.0")]).map DependencyTree.Flatten = .ok [] ∧
      (ResolveTree [("a", "1.0.0"), ("root", "2.0.0")]).map DependencyTree.Flatten =
        .ok [("a", "1.0.0")] ∧
      ∀ deps : List (String × String), (deps.map Prod.fst).Nodup →
        (ResolveTree deps).map DependencyTree.Flatten =
          .ok (deps.filter (fun e => decide (e.1 ≠ "root"))) := by
  refine ⟨by decide, by decide, ?_⟩
  intro deps hnd
  have hloop := resolveTreeLoop_fresh deps [] (fun _ _ => rfl) hnd
  have hflat := flattenChildren_leaves deps [] (fun _ _ => rfl) hnd
  simp only [List.nil_append] at hloop hflat
  simp only [ResolveTree, Except.map, DependencyTree.Flatten, DependencyNode.flatten, hloop,
    ne_eq, not_true_eq_false, if_false, hflat]

/-! ## The last claims: installer and publishing -/

/-- C21: `Install` of `github.com/owner/repo` writes the package into
`droy_modules/repo`, while `Uninstall` of the same name removes
`droy_modules/github.com/owner/repo`: it returns no error, changes nothing and
leaves the installed files in place.  For the registry name `p` the two paths
agree and `Uninstall` removes what `Install` wrote. -/
theorem Uninstall_misses_github_install :
    (Install envDemo gitDemo instDemo sysEmpty "github.com/owner/repo" "latest").2 = none ∧
      githubTargetDir instDemo "github.com/owner/repo" = "droy_modules/repo" ∧
      filepathJoin [instDemo.ModulesPath, "github.com/owner/repo"] =
        "droy_modules/github.com/owner/repo" ∧
      osStat (Install envDemo gitDemo instDemo sysEmpty "github.com/owner/repo" "latest").1
        "droy_modules/repo/main.droy" = .ok (.file [1]) ∧
      Uninstall instDemo
          (Install envDemo gitDemo instDemo sysEmpty "github.com/owner/repo" "latest").1
          "github.com/owner/repo" =
        ((Install envDemo gitDemo instDemo sysEmpty "github.com/owner/repo" "latest").1,
          none) ∧
      osStat (Install envDemo gitDemo instDemo sysEmpty "p" "1.0.0").1
        "droy_modules/p/index.droy" = .ok (.file [100]) ∧
      (Uninstall instDemo (Install envDemo gitDemo instDemo sysEmpty "p" "1.0.0").1 "p").2 =
        none ∧
      osStat (Uninstall instDemo (Install envDemo gitDemo instDemo sysEmpty "p" "1.0.0").1
        "p").1 "droy_modules/p" = .error .ENOENT := by
  decide

/-- Counterexample to C22: the request `Publish` builds for `p` 1.0.0 has the
header fields `Content-Type` and `X-Droy-Version`, and none named
`X-Package-Version`. -/
theorem Publish_header_name :
    (Publish netAccept sysAltered ⟨"https://registry.droy-lang.org"⟩ ⟨"p", "1.0.0"⟩
        "/home/.droy/cache/p-1.0.0.tgz").1 =
      some ⟨"PUT", "https://registry.droy-lang.org/p",
        [("Content-Type", "application/gzip"), ("X-Droy-Version", "1.0.0")],
        tarballAltered⟩ ∧
      ((Publish netAccept sysAltered ⟨"https://registry.droy-lang.org"⟩ ⟨"p", "1.0.0"⟩
        "/home/.droy/cache/p-1.0.0.tgz").1.map
          (fun req => mapGet req.Header "X-Package-Version")) = some none := by
  decide

/-- C22, amended: when the tarball opens and the URL parses, the request
`Publish` hands to the HTTP client is a `PUT` to the registry URL, a slash and
the package name, with the bytes of the tarball as body, the content type
`application/gzip`, and the header `X-Droy-Version` holding the package
version. -/
theorem Publish_request (net : PublishEnv) (s : Sys) (r : Registry) (pkg : Package)
    (tarball : String) (bytes : List Nat)
    (hopen : osStat s tarball = .ok (.file bytes))
    (hurl : net.urlError (r.URL ++ "/" ++ pkg.Name) = none) :
    (Publish net s r pkg tarball).1 =
      some { Method := "PUT", URL := r.URL ++ "/" ++ pkg.Name,
             Header := [("Content-Type", "application/gzip"),
               ("X-Droy-Version", pkg.Version)],
             Body := bytes } := by
  unfold Publish
  simp only [hopen, hurl]
  have hh : mapSet (mapSet ([] : List (String × String)) "Content-Type" "application/gzip")
      "X-Droy-Version" pkg.Version =
      [("Content-Type", "application/gzip"), ("X-Droy-Version", pkg.Version)] := by
    simp [mapSet]
  rw [hh]
  cases net.send _ with
  | error message => rfl
  | ok resp =>
    simp only
    split_ifs <;> rfl

/-- Witness of C22, amended: the upload of the cached archive of `p` 1.0.0. -/
theorem Publish_request_witness :
    (Publish netAccept sysAltered ⟨"https://registry.droy-lang.org"⟩ ⟨"p", "1.0.0"⟩
        "/home/.droy/cache/p-1.0.0.tgz").1 =
      some { Method := "PUT", URL := "https://registry.droy-lang.org" ++ "/" ++ "p",
             Header := [("Content-Type", "application/gzip"), ("X-Droy-Version", "1.0.0")],
             Body := tarballAltered } :=
  Publish_request netAccept sysAltered ⟨"https://registry.droy-lang.org"⟩ ⟨"p", "1.0.0"⟩
    "/home/.droy/cache/p-1.0.0.tgz" tarballAltered (by decide) (by decide)

/-- C27: the archive served for `evil` 1.0.0 holds an entry named
`../../outside.droy`; joined to the module directory `droy_modules/evil` it
is the path `outside.droy`, and `installFromRegistry` returns no error and
writes the file into the working directory, outside the module directory and
outside `droy_modules`. -/
theorem extractTarball_writes_outside :
    filepathJoin ["droy_modules/evil", "../../outside.droy"] = "outside.droy" ∧
      osStat sysEmpty "/work/outside.droy" = .error .ENOENT ∧
      (installFromRegistry envSlip instDemo sysEmpty "evil" "1.0.0").2 = none ∧
      osStat (installFromRegistry envSlip instDemo sysEmpty "evil" "1.0.0").1
        "/work/outside.droy" = .ok (.file [66]) ∧
      osStat (installFromRegistry envSlip instDemo sysEmpty "evil" "1.0.0").1
        "/work/droy_modules/evil/outside.droy" = .error .ENOENT := by
  decide

/-- C28: the name `github.com/owner/` has three parts, the last one empty, so
`installFromGitHub` accepts it and its target directory is `ModulesPath`
itself; for `github.com/owner/..` it is the directory above.  With `p`
installed, `installFromGitHub` of `github.com/owner/` removes `droy_modules`
with the files of `p` before the clone fails. -/
theorem installFromGitHub_removes_modules :
    (Split "github.com/owner/" '/').length = 3 ∧
      githubTargetDir instDemo "github.com/owner/" = instDemo.ModulesPath ∧
      githubTargetDir instDemo "github.com/owner/.." = "." ∧
      osStat (Install envDemo gitDemo instDemo sysEmpty "p" "1.0.0").1
        "droy_modules/p/index.droy" = .ok (.file [100]) ∧
      (installFromGitHub gitDemo instDemo
        (Install envDemo gitDemo instDemo sysEmpty "p" "1.0.0").1 "github.com/owner/"
        "latest").2 =
        some (.wrap "failed to clone repository" (.text "repository not found")) ∧
      osStat (installFromGitHub gitDemo instDemo
        (Install envDemo gitDemo instDemo sysEmpty "p" "1.0.0").1 "github.com/owner/"
        "latest").1 "droy_modules/p/index.droy" = .error .ENOENT ∧
      osStat (installFromGitHub gitDemo instDemo
        (Install envDemo gitDemo instDemo sysEmpty "p" "1.0.0").1 "github.com/owner/"
        "latest").1 "droy_modules" = .error .ENOENT := by
  decide

/-- C29: for the release tag `v1.2.0` `getLatestGitHubVersion` returns the
version `1.2.0`, and with that version the clone requests the reference
`refs/tags/1.2.0`, not `refs/tags/v1.2.0`; a leading `v` of a tag is always
cut off. -/
theorem clone_reference_loses_v :
    getLatestGitHubVersion remoteTag "github.com/owner/repo" = .ok "1.2.0" ∧
      (cloneOptionsFor "owner" "repo" "1.2.0").ReferenceName = "refs/tags/1.2.0" ∧
      (cloneOptionsFor "owner" "repo" "1.2.0").ReferenceName ≠ "refs/tags/" ++ "v1.2.0" ∧
      ∀ rest : String, TrimPrefix ("v" ++ rest) "v" = rest := by
  refine ⟨by decide, by decide, by decide, ?_⟩
  intro rest
  have hd : ("v" ++ rest).data = 'v' :: rest.data := by simp [String.data_append]
  unfold TrimPrefix HasPrefix
  simp [hd, List.isPrefixOf]

/-! ## The conflicts recorded by a run of `resolveDependency` -/

theorem mapGet_mapSet_ne {β : Type} (m : List (String × β)) (k k' : String) (v : β)
    (h : k ≠ k') : mapGet (mapSet m k v) k' = mapGet m k' := by
  induction m with
  | nil => simp [mapSet, mapGet, h]
  | cons e m ih =>
    obtain ⟨k0, v0⟩ := e
    by_cases h0 : k0 = k
    · subst h0
      simp [mapSet, mapGet, h]
    · by_cases h1 : k0 = k'
      · subst h1
        simp [mapSet, mapGet, h0]
      · simp [mapSet, mapGet, h0, h1, ih]

theorem resolveDependency_no_error (w : Remote) (r : Resolver) (name spec : String) :
    (resolveDependency w r name spec).2 = none := by
  unfold resolveDependency
  cases mapGet r.resolved name with
  | none => rfl
  | some v => simp only; split_ifs <;> rfl

theorem resolveLoop_cons (w : Remote) (r : Resolver) (name spec : String)
    (rest : List (String × String)) :
    resolveLoop w r ((name, spec) :: rest) =
      resolveLoop w (resolveDependency w r name spec).1 rest := by
  have h := resolveDependency_no_error w r name spec
  cases hd : resolveDependency w r name spec with
  | mk r1 e =>
    rw [hd] at h
    simp only at h
    subst h
    simp only [resolveLoop, hd]

theorem resolveDependency_frame (w : Remote) (r : Resolver) (other spec name : String)
    (h : other ≠ name) :
    mapGet (resolveDependency w r other spec).1.resolved name = mapGet r.resolved name ∧
      mapGet (resolveDependency w r other spec).1.conflicts name =
        mapGet r.conflicts name := by
  unfold resolveDependency
  cases mapGet r.resolved other with
  | none => exact ⟨mapGet_mapSet_ne _ _ _ _ h, rfl⟩
  | some v =>
    simp only
    split_ifs
    · exact ⟨rfl, mapGet_mapSet_ne _ _ _ _ h⟩
    · exact ⟨rfl, rfl⟩

theorem resolveDependency_first (w : Remote) (r : Resolver) (name spec : String)
    (h : mapGet r.resolved name = none) :
    mapGet (resolveDependency w r name spec).1.resolved name =
        some (storedVersion w name spec) ∧
      (resolveDependency w r name spec).1.conflicts = r.conflicts := by
  rw [resolveDependency_fresh w r name spec h]
  refine ⟨?_, rfl⟩
  simp only
  rw [← mapSet_of_mapGet_none _ _ _ h]
  exact mapGet_mapSet_self _ _ _

theorem resolveDependency_again (w : Remote) (r : Resolver) (name spec version : String)
    (h : mapGet r.resolved name = some version) :
    (resolveDependency w r name spec).1.resolved = r.resolved ∧
      mapGet (resolveDependency w r name spec).1.conflicts name =
        extendRecorded (mapGet r.conflicts name)
          (if satisfies version (normalizeVersionSpec spec) = true then []
            else [normalizeVersionSpec spec]) := by
  unfold resolveDependency
  simp only [h]
  cases hs : satisfies version (normalizeVersionSpec spec) with
  | true => simp [extendRecorded]
  | false =>
    simp only [Bool.not_false, if_true, Bool.false_eq_true, if_false]
    refine ⟨trivial, ?_⟩
    rw [mapGet_mapSet_self]
    simp [extendRecorded]

theorem extendRecorded_append (old : Option (List String)) (a b : List String) :
    extendRecorded (extendRecorded old a) b = extendRecorded old (a ++ b) := by
  unfold extendRecorded
  by_cases ha : a = []
  · subst ha
    simp
  · by_cases hb : b = []
    · subst hb
      simp [ha]
    · simp [ha, hb]

theorem resolveLoop_again (w : Remote) (name version : String)
    (demands : List (String × String)) :
    ∀ r : Resolver, mapGet r.resolved name = some version →
      mapGet (resolveLoop w r demands).1.resolved name = some version ∧
        mapGet (resolveLoop w r demands).1.conflicts name =
          extendRecorded (mapGet r.conflicts name)
            (((demands.filter (fun d => decide (d.1 = name))).map
              (fun d => normalizeVersionSpec d.2)).filter
              (fun c => !satisfies version c)) := by
  induction demands with
  | nil => intro r h; exact ⟨h, by simp [resolveLoop, extendRecorded]⟩
  | cons d demands ih =>
    intro r h
    obtain ⟨other, spec⟩ := d
    rw [resolveLoop_cons]
    by_cases hn : other = name
    · subst hn
      obtain ⟨hres, hconf⟩ := resolveDependency_again w r other spec version h
      obtain ⟨h1, h2⟩ := ih (resolveDependency w r other spec).1 (by rw [hres]; exact h)
      refine ⟨h1, ?_⟩
      rw [h2, hconf, extendRecorded_append]
      congr 1
      cases hs : satisfies version (normalizeVersionSpec spec) <;> simp [hs]
    · obtain ⟨hres, hconf⟩ := resolveDependency_frame w r other spec name hn
      obtain ⟨h1, h2⟩ := ih (resolveDependency w r other spec).1 (by rw [hres]; exact h)
      refine ⟨h1, ?_⟩
      rw [h2, hconf]
      simp [hn]

theorem resolveLoop_recorded (w : Remote) (name : String) (demands : List (String × String)) :
    ∀ r : Resolver, mapGet r.resolved name = none →
      mapGet (resolveLoop w r demands).1.conflicts name =
        extendRecorded (mapGet r.conflicts name) (laterUnsatisfied w name demands) := by
  induction demands with
  | nil => intro r _; simp [resolveLoop, laterUnsatisfied, extendRecorded]
  | cons d demands ih =>
    intro r h
    obtain ⟨other, spec⟩ := d
    rw [resolveLoop_cons]
    by_cases hn : other = name
    · subst hn
      obtain ⟨hres, hconf⟩ := resolveDependency_first w r other spec h
      rw [(resolveLoop_again w other _ demands _ hres).2, hconf]
      simp [laterUnsatisfied]
    · obtain ⟨hres, hconf⟩ := resolveDependency_frame w r other spec name hn
      rw [ih (resolveDependency w r other spec).1 (by rw [hres]; exact h), hconf]
      simp [laterUnsatisfied, hn]

theorem conflict_entry_eq (name : String) (specs : List String) :
    name ++ ": " ++ fmtStrings specs = name ++ ": [" ++ Join specs " " ++ "]" := by
  unfold fmtStrings
  apply String.ext
  simp [String.data_append]

/-- C11, amended: over any sequence of demands handled by `resolveDependency`
from the empty state, the conflicts recorded for a name are the constraints
demanded for it after the first one, normalised, that the version stored at
the first demand does not satisfy; the constraint of the first demand and the
satisfied ones are not recorded, and a name without such a constraint has no
entry.  For every resolver state the conflict error is the header followed by
one entry `name: [constraints]` per recorded package, in the sorted order of
the entry strings. -/
theorem formatConflicts_entries (w : Remote) (demands : List (String × String))
    (name : String) :
    mapGet (resolveLoop w ⟨[], []⟩ demands).1.conflicts name =
        (if laterUnsatisfied w name demands = [] then none
          else some (laterUnsatisfied w name demands)) ∧
      ∀ r : Resolver, ∃ lines : List String,
        formatConflicts r = "version conflicts:\n  " ++ Join lines "\n  " ∧
          lines.Perm (r.conflicts.map (fun e => e.1 ++ ": [" ++ Join e.2 " " ++ "]")) ∧
          lines.Sorted strLe := by
  constructor
  · rw [resolveLoop_recorded w name demands ⟨[], []⟩ rfl]
    simp [extendRecorded, mapGet]
  · intro r
    obtain ⟨lines, h1, h2, h3⟩ := formatConflicts_sorted r
    refine ⟨lines, h1, ?_, h3⟩
    have he : conflictEntries r =
        r.conflicts.map (fun e => e.1 ++ ": [" ++ Join e.2 " " ++ "]") := by
      unfold conflictEntries
      apply List.map_congr_left
      intro e _
      exact conflict_entry_eq e.1 e.2
    rw [← he]
    exact h2

/-- Witness of C11, amended: `C` is demanded as `^1.0.0`, which resolves it to
`1.5.0`, then as `2.0.0`, as `^3.0.0`, as `1.5.0` and as ` 3.0.0 `, with a
demand for `D` in between; the conflicts recorded for `C` are `2.0.0` and
`3.0.0`, and `D` has none. -/
theorem formatConflicts_entries_witness :
    mapGet (resolveLoop remoteC ⟨[], []⟩ [("C", "^1.0.0"), ("C", "2.0.0"), ("D", "1.0.0"),
        ("C", "^3.0.0"), ("C", "1.5.0"), ("C", " 3.0.0 ")]).1.conflicts "C" =
        (if laterUnsatisfied remoteC "C" [("C", "^1.0.0"), ("C", "2.0.0"), ("D", "1.0.0"),
            ("C", "^3.0.0"), ("C", "1.5.0"), ("C", " 3.0.0 ")] = [] then none
          else some (laterUnsatisfied remoteC "C" [("C", "^1.0.0"), ("C", "2.0.0"),
            ("D", "1.0.0"), ("C", "^3.0.0"), ("C", "1.5.0"), ("C", " 3.0.0 ")])) ∧
      laterUnsatisfied remoteC "C" [("C", "^1.0.0"), ("C", "2.0.0"), ("D", "1.0.0"),
        ("C", "^3.0.0"), ("C", "1.5.0"), ("C", " 3.0.0 ")] = ["2.0.0", "3.0.0"] ∧
      formatConflicts (resolveLoop remoteC ⟨[], []⟩ [("C", "^1.0.0"), ("C", "2.0.0"),
        ("D", "1.0.0"), ("C", "^3.0.0"), ("C", "1.5.0"), ("C", " 3.0.0 ")]).1 =
        "version conflicts:\n  C: [2.0.0 3.0.0]" :=
  ⟨(formatConflicts_entries remoteC [("C", "^1.0.0"), ("C", "2.0.0"), ("D", "1.0.0"),
      ("C", "^3.0.0"), ("C", "1.5.0"), ("C", " 3.0.0 ")] "C").1,
    by decide, by decide⟩

/-! ## The outcomes of a failed download -/

theorem osCreate_requests (s : Sys) (requests : List String) (path : String) :
    osCreate { s with requests := requests } path =
      match osCreate s path with
      | .ok t => .ok { t with requests := requests }
      | .error e => .error e := by
  unfold osCreate
  by_cases hp : path = ""
  · simp [hp]
  by_cases hroot : resolvePath s.cwd path = []
  · simp [hp, hroot]
  simp only [hp, hroot, if_false]
  cases lookupFrom s.files [] (resolvePath s.cwd path).dropLast with
  | error e => rfl
  | ok m =>
    cases m with
    | file b => rfl
    | dir =>
      simp only
      cases hn : nodeAt s.files (resolvePath s.cwd path) with
      | none => rfl
      | some n => cases n <;> rfl

/-- C17, amended: the four ways `downloadFile(url, path)` returns an error.
When the request fails, when the status is not 200, and when the file cannot
be created, the file system is as before.  When the status is 200, the file
can be created and the body fails while it is copied, the error is that of
the body, the file exists at `path` with the bytes received before the
failure, and an `installFromRegistry` whose cache path is `path` makes no
request afterwards: it takes the file for a cache hit. -/
theorem downloadFile_error_file (env : Env) (s : Sys) (url path : String) :
    (∀ message, env.http s.requests url = .failed message →
        (downloadFile env s url path).2 = some (.text message) ∧
          (downloadFile env s url path).1.files = s.files) ∧
      (∀ code status body bodyErr,
        env.http s.requests url = .response code status body bodyErr → code ≠ 200 →
        (downloadFile env s url path).2 = some (.text ("download failed: " ++ status)) ∧
          (downloadFile env s url path).1.files = s.files) ∧
      (∀ status body bodyErr e,
        env.http s.requests url = .response 200 status body bodyErr →
        osCreate s path = .error e →
        (downloadFile env s url path).2 = some (.os e) ∧
          (downloadFile env s url path).1.files = s.files) ∧
      (∀ status body message s',
        env.http s.requests url = .response 200 status body (some message) →
        osCreate s path = .ok s' →
        (downloadFile env s url path).2 = some (.text message) ∧
          osStat (downloadFile env s url path).1 path = .ok (.file body) ∧
          ∀ (i : Installer) (name version : String),
            filepathJoin [i.CachePath, name ++ "-" ++ version ++ ".tgz"] = path →
            (installFromRegistry env i (downloadFile env s url path).1 name version).1.requests
              = (downloadFile env s url path).1.requests) := by
  refine ⟨?_, ?_, ?_, ?_⟩
  · intro message hr
    simp [downloadFile, hr]
  · intro code status body bodyErr hr hcode
    simp [downloadFile, hr, hcode]
  · intro status body bodyErr e hr hc
    have hc2 := osCreate_requests s (s.requests ++ [url]) path
    rw [hc] at hc2
    simp [downloadFile, hr, hc2]
  · intro status body message s' hr hc
    have hc2 := osCreate_requests s (s.requests ++ [url]) path
    rw [hc] at hc2
    simp only at hc2
    have hres : downloadFile env s url path =
        (copyTo { s' with requests := s.requests ++ [url] } path body,
          some (.text message)) := by
      simp [downloadFile, hr, hc2]
    obtain ⟨_, _, _, hst⟩ := osCreate_copyTo _ _ path body hc2
    rw [hres]
    refine ⟨rfl, hst, ?_⟩
    intro i name version hpath
    rw [← tarballPath_eq env] at hpath
    apply installFromRegistry_hit_requests env i _ name version (.file body)
    rw [hpath]
    exact hst

/-- Witness of C17, amended: the download of `q` 1.0.0 into an empty cache,
with a body that fails after three bytes. -/
theorem downloadFile_error_file_witness :
    (downloadFile envDemo sysEmpty (tarballURL envDemo "q" "1.0.0")
        "/home/.droy/cache/q-1.0.0.tgz").2 = some (.text "unexpected EOF") ∧
      osStat (downloadFile envDemo sysEmpty (tarballURL envDemo "q" "1.0.0")
        "/home/.droy/cache/q-1.0.0.tgz").1 "/home/.droy/cache/q-1.0.0.tgz" =
        .ok (.file [31, 139, 8]) ∧
      ∀ (i : Installer) (name version : String),
        filepathJoin [i.CachePath, name ++ "-" ++ version ++ ".tgz"] =
          "/home/.droy/cache/q-1.0.0.tgz" →
        (installFromRegistry envDemo i (downloadFile envDemo sysEmpty
          (tarballURL envDemo "q" "1.0.0")
          "/home/.droy/cache/q-1.0.0.tgz").1 name version).1.requests
          = (downloadFile envDemo sysEmpty (tarballURL envDemo "q" "1.0.0")
            "/home/.droy/cache/q-1.0.0.tgz").1.requests :=
  (downloadFile_error_file envDemo sysEmpty (tarballURL envDemo "q" "1.0.0")
    "/home/.droy/cache/q-1.0.0.tgz").2.2.2 "200 OK" [31, 139, 8] "unexpected EOF"
    (copyTo sysEmpty "/home/.droy/cache/q-1.0.0.tgz" []) (by decide) (by decide)

/-! ## The version stored after a failed registry lookup -/

theorem storedVersion_of_package_error (w : Remote) (name spec err : String)
    (hreg : w.package name = .error err) :
    storedVersion w name spec =
      if HasPrefix name "github.com/" = true ∧ 3 ≤ (Split name '/').length then
        match w.release ((Split name '/').getD 1 "") ((Split name '/').getD 2 "") with
        | none => "latest"
        | some tagName => TrimPrefix tagName "v"
      else normalizeVersionSpec spec := by
  unfold storedVersion GetLatestVersion getLatestGitHubVersion
  simp only [hreg]
  by_cases hp : HasPrefix name "github.com/" = true
  · by_cases hlen : (Split name '/').length < 3
    · have h3 : ¬ 3 ≤ (Split name '/').length := by omega
      simp only [hp, hlen, h3, if_true, and_false, if_false]
    · have h3 : 3 ≤ (Split name '/').length := by omega
      simp only [hp, hlen, h3, if_true, if_false, and_self]
      cases w.release ((Split name '/').getD 1 "") ((Split name '/').getD 2 "") <;> rfl
  · have hf : HasPrefix name "github.com/" = false := by
      cases h : HasPrefix name "github.com/" with
      | false => rfl
      | true => exact absurd h hp
    simp [hf]

/-- Counterexample to C25: with an unreachable registry the lookup of
`github.com/x/y` fails, and `Resolve({github.com/x/y: ^1.0.0})` maps the name
to `latest`, not to its constraint `^1.0.0`. -/
theorem Resolve_github_failed_lookup_latest :
    remoteDown.package "github.com/x/y" = .error "failed to fetch package" ∧
      normalizeVersionSpec "^1.0.0" = "^1.0.0" ∧
      Resolve remoteDown [("github.com/x/y", "^1.0.0")] =
        .ok [("github.com/x/y", "latest")] := by
  decide

/-- C25, amended: a package of a dependency map whose registry lookup fails is
resolved to its own constraint, trimmed, with `latest` for an empty one, when
its name does not start with `github.com/` or has fewer than three parts; when
the name starts with `github.com/` and has three parts or more, it is resolved
to `latest` if the release lookup fails too, and to the release tag without a
leading `v` otherwise. -/
theorem Resolve_failed_lookup_constraint (w : Remote) (deps : List (String × String))
    (name spec err : String) (hnd : (deps.map Prod.fst).Nodup) (hmem : (name, spec) ∈ deps)
    (hreg : w.package name = .error err) :
    ∃ resolved, Resolve w deps = .ok resolved ∧
      ((HasPrefix name "github.com/" = false ∨ (Split name '/').length < 3) →
        mapGet resolved name =
          some (if TrimSpace spec = "" then "latest" else TrimSpace spec)) ∧
      (HasPrefix name "github.com/" = true → 3 ≤ (Split name '/').length →
        (w.release ((Split name '/').getD 1 "") ((Split name '/').getD 2 "") = none →
          mapGet resolved name = some "latest") ∧
        (∀ tag, w.release ((Split name '/').getD 1 "") ((Split name '/').getD 2 "") =
            some tag →
          mapGet resolved name = some (TrimPrefix tag "v"))) := by
  refine ⟨_, Resolve_eq_map w deps hnd, ?_, ?_⟩
  all_goals
    have hnd2 : ((deps.map (fun e => (e.1, storedVersion w e.1 e.2))).map Prod.fst).Nodup := by
      simpa [List.map_map, Function.comp_def] using hnd
    have hin : (name, storedVersion w name spec) ∈
        deps.map (fun e => (e.1, storedVersion w e.1 e.2)) :=
      List.mem_map_of_mem (fun e : String × String => (e.1, storedVersion w e.1 e.2)) hmem
    have hget := (mapGet_eq_some_iff _ _ _ hnd2).mpr hin
    have hsv := storedVersion_of_package_error w name spec err hreg
  · intro hcase
    have hno : ¬ (HasPrefix name "github.com/" = true ∧ 3 ≤ (Split name '/').length) := by
      rintro ⟨h1, h2⟩
      rcases hcase with h | h
      · rw [h1] at h
        exact absurd h (by simp)
      · omega
    rw [hget, hsv, if_neg hno]
    rfl
  · intro hp hlen
    rw [hget, hsv, if_pos ⟨hp, hlen⟩]
    constructor
    · intro hrel
      rw [hrel]
    · intro tag hrel
      rw [hrel]

/-- Witness of C25, amended: the map `{a: ^1.0.0, b: "", github.com/x/y:
^1.0.0}` against an unreachable registry; `a` and `b` are resolved to their
normalised constraints and the GitHub name to `latest`. -/
theorem Resolve_failed_lookup_constraint_witness :
    (∃ resolved,
        Resolve remoteDown [("a", "^1.0.0"), ("b", ""), ("github.com/x/y", "^1.0.0")] =
          .ok resolved ∧
        mapGet resolved "b" = some (if TrimSpace "" = "" then "latest" else TrimSpace "")) ∧
      Resolve remoteDown [("a", "^1.0.0")] = .ok [("a", "^1.0.0")] ∧
      Resolve remoteDown [("b", "")] = .ok [("b", "latest")] ∧
      Resolve remoteDown [("a", "^1.0.0"), ("b", ""), ("github.com/x/y", "^1.0.0")] =
        .ok [("a", "^1.0.0"), ("b", "latest"), ("github.com/x/y", "latest")] :=
  ⟨(Resolve_failed_lookup_constraint remoteDown
      [("a", "^1.0.0"), ("b", ""), ("github.com/x/y", "^1.0.0")] "b" ""
      "failed to fetch package" (by decide) (by decide) (by decide)).imp
      (fun _ h => ⟨h.1, h.2.1 (Or.inl (by decide))⟩),
    by decide, by decide, by decide⟩

end DroyPM
